import Mathlib

/-!
Verification of the geometry / partition / placement / validation engine of the
11plus-prototype-1 repository, as a shallow embedding in Lean 4.

Conventions used throughout this development:

* Python floats are modelled as rationals (`ℚ`); every arithmetic operation that
  appears in the source is exact on the inputs we consider.
* `math.hypot`-based distance comparisons (`dist(a,b) >= d`, `dist(a,b) < d`)
  are embedded in squared form, which is equivalent for the direction of the
  comparison being tested (`hypot(a-b) >= d` iff `d <= 0` or
  `sqdist a b >= d^2`, since `hypot` is nonnegative).
* A `random.Random` object is modelled by an explicit stream of unit draws
  `u : Nat → ℚ` together with a counter threaded through the code, mirroring
  the order in which the Python code consumes draws; `rng.uniform(a, b)` is
  `a + (b - a) * u k`.  Theorems about placement quantify over every stream,
  hence they hold in particular for the stream produced by the seeded
  Mersenne Twister.
* Python exceptions are modelled with `Except String`; a function that can
  raise returns `Except String α`.
-/

/-! ### nvr_logic_validation.py -/

/-- One conflict record produced by `check_derived_parameters`
(`{"property": .., "answer_index": .., "value": .., "common_value": ..}`). -/
structure Conflict (β : Type) where
  property : String
  answer_index : Nat
  value : β
  common_value : β
deriving DecidableEq

/-- First-occurrence-ordered list of distinct values, which is exactly the key
iteration order of `collections.Counter(values)` (Python dicts preserve
insertion order, and `Counter` inserts keys at their first occurrence). -/
def distinctValues {β : Type} [DecidableEq β] (values : List β) : List β :=
  values.foldl (fun acc v => if v ∈ acc then acc else acc ++ [v]) []

/-- Index-threaded translation of `[i for i, v in enumerate(values) if v == odd_val]`. -/
def oddIndicesAux {β : Type} [DecidableEq β] (odd : β) : List β → Nat → List Nat
  | [], _ => []
  | v :: rest, i =>
      if v = odd then i :: oddIndicesAux odd rest (i + 1) else oddIndicesAux odd rest (i + 1)

/-- The list of 0-based indices of `values` holding the value `odd`. -/
def oddIndices {β : Type} [DecidableEq β] (values : List β) (odd : β) : List Nat :=
  oddIndicesAux odd values 0

/-- The body of the `for name, func in extractors.items()` loop of
`check_derived_parameters`, applied to one successfully extracted value list.
`target` is `split_target_count = n - 1`.

The source computes `has_common_rule = any(c == split_target_count for c in
counts.values())`, and, under that guard, `common_value = next(v for v, c in
counts.items() if c == split_target_count)`; the two together are exactly
`find?` on the `Counter` key order (`distinctValues`), with `none` meaning the
guard failed.  `odd_val = next((v for v, c in counts.items() if c == 1), None)`
is the second `find?`. -/
def propertyConflicts {β : Type} [DecidableEq β] (name : String) (target : Nat)
    (values : List β) : List (Conflict β) :=
  match (distinctValues values).find? (fun v => values.count v == target) with
  | none => []
  | some common =>
    match (distinctValues values).find? (fun v => values.count v == 1) with
    | none => []
    | some odd =>
        (oddIndices values odd).map (fun i =>
          { property := name, answer_index := i, value := odd, common_value := common })

/-- Translation of `values = [func(opt) for opt in options]`: the first raised
exception aborts the whole comprehension and propagates. -/
def extractValues {α β : Type} (f : α → Except String β) : List α → Except String (List β)
  | [] => Except.ok []
  | o :: rest =>
    match f o with
    | Except.error e => Except.error e
    | Except.ok v =>
      match extractValues f rest with
      | Except.error e => Except.error e
      | Except.ok vs => Except.ok (v :: vs)

/-- Translation of `check_derived_parameters(options, extractors)`
(`nvr_logic_validation.py`).  `extractors` is an insertion-ordered dict,
modelled as an association list.  The `try`/`except Exception: continue`
around the extraction comprehension makes a failing extractor contribute no
conflicts for its property. -/
def check_derived_parameters {α β : Type} [DecidableEq β] (options : List α)
    (extractors : List (String × (α → Except String β))) : List (Conflict β) :=
  let n := options.length
  let split_target_count := n - 1
  extractors.flatMap (fun pr =>
    match extractValues pr.2 options with
    | Except.error _ => []
    | Except.ok values => propertyConflicts pr.1 split_target_count values)

/-! ### param_splits.py (sample-nvr-odd-one-out) -/

/-- `ALLOWED_SPLITS` dict; a split tuple is modelled as a `List Nat` and
`dict.get` returning `None` as the empty list. -/
def ALLOWED_SPLITS (n : Nat) : List (List Nat) :=
  if n = 4 then [[2, 2], [2, 1, 1]]
  else if n = 5 then [[2, 3], [3, 1, 1], [2, 2, 1], [2, 1, 1, 1], [1, 1, 1, 1, 1]]
  else if n = 6 then
    [[3, 3], [2, 2, 2], [4, 2], [4, 1, 1], [3, 2, 1],
     [3, 1, 1, 1], [2, 2, 1, 1], [2, 1, 1, 1, 1], [1, 1, 1, 1, 1, 1]]
  else []

/-- The `max_values` filter step of `sample_split`:
`if max_values is not None: splits = [s for s in splits if len(s) <= max_values]`. -/
def filteredSplits (splits : List (List Nat)) : Option Nat → List (List Nat)
  | none => splits
  | some m => splits.filter (fun s => s.length ≤ m)

/-- Translation of `sample_split(n_options, rng, max_values)`.  `rng.choice(seq)`
picks one element of `seq`; it is modelled by an arbitrary index `choose`
reduced modulo the sequence length, so every reachable result is covered. -/
def sample_split (n_options : Nat) (choose : Nat) (max_values : Option Nat) :
    Except String (List Nat) :=
  let splits := ALLOWED_SPLITS n_options
  if splits.isEmpty then Except.error "No allowed splits for n_options"
  else
    let splits2 := filteredSplits splits max_values
    if h : splits2.length = 0 then Except.error "No allowed split for n_options with max_values"
    else Except.ok (splits2.get ⟨choose % splits2.length, Nat.mod_lt _ (Nat.pos_of_ne_zero h)⟩)

/-- Swap the entries at positions `i` and `j` (the effect of
`x[i], x[j] = x[j], x[i]` on a Python list; out-of-range indices cannot occur
in `random.shuffle`, the catch-all branch keeps the function total). -/
def listSwap {γ : Type} (l : List γ) (i j : Nat) : List γ :=
  match l[i]?, l[j]? with
  | some a, some b => (l.set i b).set j a
  | _, _ => l

/-- The loop of `random.shuffle(x)`:
`for i in reversed(range(1, len(x))): j = randbelow(i+1); swap x[i] x[j]`.
`g i` models the raw draw used for `randbelow(i+1)`, reduced modulo `i+1`. -/
def shuffleGo {γ : Type} (g : Nat → Nat) : Nat → List γ → List γ
  | 0, l => l
  | 1, l => l
  | (i + 2), l => shuffleGo g (i + 1) (listSwap l (i + 1) (g (i + 1) % (i + 2)))

/-- `rng.shuffle(x)` as a pure function of the draw stream `g`. -/
def shuffle {γ : Type} (g : Nat → Nat) (l : List γ) : List γ :=
  shuffleGo g l.length l

/-- Translation of `assign_split_to_indices(split, n_options, rng)`. -/
def assign_split_to_indices (split : List Nat) (n_options : Nat) (g : Nat → Nat) :
    Except String (List Nat) :=
  if split.sum ≠ n_options then Except.error "Split does not sum to n_options"
  else
    let indices := split.enum.flatMap (fun p => List.replicate p.2 p.1)
    Except.ok (shuffle g indices)

/-! ### nvr_draw_container_svg.py: radial partition of regular polygons -/

/-- Vertex index pairs `(idx0, idx1)` of the wedges emitted by the radial branch of
`build_partitioned_sections` for a regular polygon (shape in triangle..octagon with
`sides % num_sections == 0`):

    step = sides // num_sections
    idx0 = (i * step) % sides
    idx1 = (i * step + 1) % sides

for `i` over the sections.  Wedge `i` is the triangle
`M cx cy L vertices[idx0] L vertices[idx1] Z`.  Since `idx1 = (idx0 + 1) % sides`, each
wedge is exactly the elementary triangle `(centroid, v_idx0, v_idx0+1)`; the polygon is
the disjoint union of the `sides` elementary triangles, so the emitted wedges tile the
polygon with no gaps or overlaps precisely when the multiset of `idx0` values is all of
`range sides`. -/
def radialWedgeIndexPairs (sides sections : Nat) : List (Nat × Nat) :=
  let step := sides / sections
  (List.range sections).map (fun i => ((i * step) % sides, (i * step + 1) % sides))

/-- The regular-polygon shape keys (the tuple tested by `main` before radial
partitioning, and by `build_partitioned_sections`). -/
def SHAPES_REGULAR_POLYGON : List String :=
  ["triangle", "square", "pentagon", "hexagon", "heptagon", "octagon"]

/-- Number of vertices returned by `get_shape_geometry` for each regular polygon shape
(`sides = {"triangle": 3, "pentagon": 5, "hexagon": 6, "heptagon": 7, "octagon": 8}`,
and the explicit 4-vertex square). -/
def regularPolygonSides (shape : String) : Option Nat :=
  if shape = "triangle" then some 3
  else if shape = "square" then some 4
  else if shape = "pentagon" then some 5
  else if shape = "hexagon" then some 6
  else if shape = "heptagon" then some 7
  else if shape = "octagon" then some 8
  else none

/-- Translation of the radial-partition validation that the CLI entry point `main`
(`nvr_draw_container_svg.py`) performs before calling `build_partitioned_sections`,
for a shape with at least 3 vertices: regular polygons demand
`sides % num_radial == 0` (`raise SystemExit` otherwise), semicircle allows any
count, star allows 5, and any other shape demands exactly 4 quadrants.  Only the CLI
runs this check: the in-repo XML render path (`xml_to_svg.py`, which calls
`single_shape_renderer.render_shape_to_svg`) invokes `build_partitioned_sections`
directly without it, so the engine dispatch `build_radial_construction` below decides
what such a request actually does. -/
def radialSectionValidate (shape : String) (sides numRadial : Nat) : Except String Unit :=
  if shape ∈ SHAPES_REGULAR_POLYGON then
    if sides % numRadial ≠ 0 then
      Except.error "Radial partition: number of radial sections must divide sides"
    else Except.ok ()
  else if shape = "semicircle" then Except.ok ()
  else if shape = "star" && numRadial == 5 then Except.ok ()
  else if numRadial ≠ 4 then
    Except.error "Radial partition for irregular shape requires exactly 4 sections"
  else Except.ok ()

/-- Outcome of the radial branch of `build_partitioned_sections` for a shape with at
least 3 vertices (excluding the circle/semicircle/5-section-star special cases the
source handles earlier): either polygon-edge wedges, the 4-quadrant clipped
rectangles, or the raised `ValueError`. -/
inductive RadialConstruction
  | polygonWedges
  | quadrantClip
  | configError (msg : String)
deriving DecidableEq

/-- The dispatch of the radial branch of `build_partitioned_sections`
(`nvr_draw_container_svg.py` lines 1653-1690):

    if shape in ("triangle", ..., "octagon") and sides % num_sections == 0:
        ... wedges at polygon vertices ...
    else:
        if num_sections != 4:
            raise ValueError("Radial partition for irregular shape requires exactly 4 sections.")
        ... quadrant rectangles clipped to the shape ...

The `else` branch also receives regular polygons whose side count the section count
does not divide: with exactly 4 sections they are silently quadrant-clipped, with no
error. -/
def build_radial_construction (shape : String) (sides numSections : Nat) :
    RadialConstruction :=
  if shape ∈ SHAPES_REGULAR_POLYGON ∧ sides % numSections = 0 then
    RadialConstruction.polygonWedges
  else if numSections ≠ 4 then
    RadialConstruction.configError
      "Radial partition for irregular shape requires exactly 4 sections."
  else RadialConstruction.quadrantClip

/-! ### nvr_draw_container_svg.py: shape bounding boxes -/

/-- Radius of the circle container (`CIRCLE_RADIUS = 35.0`). -/
def CIRCLE_RADIUS : ℚ := 35

/-- Radius of the semicircle container (`SEMICIRCLE_RADIUS = 42.0`). -/
def SEMICIRCLE_RADIUS : ℚ := 42

/-- Translation of `get_shape_bbox(shape, vertices, path_d)`: returns
`(x_min, x_max, y_min, y_max)`.  `path_d` is unused by the source; the `vertices`
branch is Python `min`/`max` over the coordinate generators, and the final
square-like fallback is `(15.0, 85.0, 15.0, 85.0)`.  The semicircle branch uses
`cy = 67.5` and returns `(50 - r, 50 + r, cy - r, cy + r)`. -/
def get_shape_bbox (shape : String) (vertices : List (ℚ × ℚ)) : ℚ × ℚ × ℚ × ℚ :=
  if shape = "circle" then
    (50 - CIRCLE_RADIUS, 50 + CIRCLE_RADIUS, 50 - CIRCLE_RADIUS, 50 + CIRCLE_RADIUS)
  else if shape = "semicircle" then
    (50 - SEMICIRCLE_RADIUS, 50 + SEMICIRCLE_RADIUS,
     67.5 - SEMICIRCLE_RADIUS, 67.5 + SEMICIRCLE_RADIUS)
  else
    match vertices with
    | [] => (15, 85, 15, 85)
    | v :: rest =>
      ((rest.map Prod.fst).foldl min v.1, (rest.map Prod.fst).foldl max v.1,
       (rest.map Prod.snd).foldl min v.2, (rest.map Prod.snd).foldl max v.2)

/-- The point set of the circle container: centre `(50, 50)`, radius `CIRCLE_RADIUS`
(from `get_shape_geometry`, shape `"circle"`). -/
def inCircleShape (x y : ℚ) : Prop :=
  (x - 50) ^ 2 + (y - 50) ^ 2 ≤ CIRCLE_RADIUS ^ 2

/-- The point set of the semicircle container (from `_semicircle_geometry`): circle
centre `(50, 67.5)`, radius `SEMICIRCLE_RADIUS`, flat edge at the bottom (`y = 67.5`)
with the arc on top, i.e. the half with `y ≤ 67.5`. -/
def inSemicircleShape (x y : ℚ) : Prop :=
  (x - 50) ^ 2 + (y - 67.5) ^ 2 ≤ SEMICIRCLE_RADIUS ^ 2 ∧ y ≤ 67.5

/-- Box membership for an `(x_min, x_max, y_min, y_max)` tuple. -/
def bboxContains (box : ℚ × ℚ × ℚ × ℚ) (x y : ℚ) : Prop :=
  box.1 ≤ x ∧ x ≤ box.2.1 ∧ box.2.2.1 ≤ y ∧ y ≤ box.2.2.2

/-- A box is the tight (exact) axis-aligned bounding box of a point set when it
contains the set and all four bounds are attained by points of the set. -/
def isTightBBoxFor (box : ℚ × ℚ × ℚ × ℚ) (S : ℚ → ℚ → Prop) : Prop :=
  (∀ x y, S x y → bboxContains box x y) ∧
  (∃ x y, S x y ∧ x = box.1) ∧ (∃ x y, S x y ∧ x = box.2.1) ∧
  (∃ x y, S x y ∧ y = box.2.2.1) ∧ (∃ x y, S x y ∧ y = box.2.2.2)

/-! ### Placement engine: random_positions (nvr_draw_container_svg.py) and
_scatter_positions (nvr_draw_layout.py) -/

/-- Squared Euclidean distance; `math.hypot(ax - bx, ay - by) ** 2`. -/
def sqdist (a b : ℚ × ℚ) : ℚ := (a.1 - b.1) ^ 2 + (a.2 - b.2) ^ 2

/-- The comparison `distance(a, b) >= d` of the source in squared form: since the
Euclidean distance is nonnegative, `hypot(..) >= d` holds iff `d ≤ 0` or
`d ^ 2 ≤ sqdist a b`. -/
def distGe (a b : ℚ × ℚ) (d : ℚ) : Bool :=
  decide (d ≤ 0) || decide (d ^ 2 ≤ sqdist a b)

/-- The `accept(cx, cy)` closure of `random_positions`: the optional `inside_check`
(absent is modelled by `fun _ _ => true`) plus minimum distance to all previously
accepted positions. -/
def rpAccept (inside : ℚ → ℚ → Bool) (min_dist : ℚ) (positions : List (ℚ × ℚ))
    (c : ℚ × ℚ) : Bool :=
  inside c.1 c.2 && positions.all (fun p => distGe c p min_dist)

/-- The `while len(positions) < count and attempts < limit` loop of `random_positions`.
`pts attempt` models the candidate produced by `next_point()` at that attempt
(`rng.uniform` pair or the custom `sample_point(rng)`); quantifying over every stream
covers every seeded rng. -/
def rpGo (inside : ℚ → ℚ → Bool) (min_dist : ℚ) (count : Nat) (pts : Nat → ℚ × ℚ) :
    Nat → Nat → List (ℚ × ℚ) → List (ℚ × ℚ)
  | _, 0, positions => positions
  | attempt, fuel + 1, positions =>
    if positions.length < count then
      rpGo inside min_dist count pts (attempt + 1) fuel
        (if rpAccept inside min_dist positions (pts attempt) then
          positions ++ [pts attempt]
        else positions)
    else positions

/-- Translation of `random_positions(count, min_dist, seed, inside_check, bounds,
sample_point, max_attempts)`: run the rejection-sampling loop, then
`raise SystemExit` if fewer than `count` positions were placed. -/
def random_positions (count : Nat) (min_dist : ℚ) (inside : ℚ → ℚ → Bool)
    (pts : Nat → ℚ × ℚ) (limit : Nat) : Except String (List (ℚ × ℚ)) :=
  let positions := rpGo inside min_dist count pts 0 limit []
  if positions.length < count then
    Except.error "Could not place motifs with min distance in attempts"
  else Except.ok positions

/-- The inner `for _ in range(max_attempts)` loop of `_scatter_positions`: try
candidates until one is at distance ≥ `min_dist` from every existing position; return
the accepted candidate and the next stream index, or `none` on exhaustion. -/
def scatterTryOnce (min_dist : ℚ) (positions : List (ℚ × ℚ)) (pts : Nat → ℚ × ℚ) :
    Nat → Nat → Option ((ℚ × ℚ) × Nat)
  | _, 0 => none
  | k, fuel + 1 =>
    if positions.all (fun p => distGe (pts k) p min_dist) then some (pts k, k + 1)
    else scatterTryOnce min_dist positions pts (k + 1) fuel

/-- The `for`/`else` fallback of `_scatter_positions`: place on a loose grid
(`row = len // 4`, `col = len % 4`) with no distance check. -/
def scatterGridFallback (margin : ℚ) (len : Nat) : ℚ × ℚ :=
  let row := len / 4
  let col := len % 4
  (margin + (100 - 2 * margin) * ((col : ℚ) + 1) / 5,
   margin + (100 - 2 * margin) * ((row : ℚ) + 1) / 3)

/-- The outer `for _ in range(n)` loop of `_scatter_positions`; the Python
`max_attempts = 2000` of the inner loop is hard-coded as in the source.  On inner-loop
exhaustion the stream index advances by the 2000 consumed draws. -/
def scatterLoop (margin min_dist : ℚ) (pts : Nat → ℚ × ℚ) :
    Nat → Nat → List (ℚ × ℚ) → List (ℚ × ℚ)
  | _, 0, positions => positions
  | k, n + 1, positions =>
    match scatterTryOnce min_dist positions pts k 2000 with
    | some (c, k2) => scatterLoop margin min_dist pts k2 n (positions ++ [c])
    | none =>
        scatterLoop margin min_dist pts (k + 2000) n
          (positions ++ [scatterGridFallback margin positions.length])

/-- Translation of `_scatter_positions(n, margin, min_dist, rng)` from
`nvr_draw_layout.py`; `pts k` models the `(rng.uniform(margin, 100 - margin),
rng.uniform(margin, 100 - margin))` candidate built from the k-th pair of draws. -/
def scatter_positions (n : Nat) (margin min_dist : ℚ) (pts : Nat → ℚ × ℚ) :
    List (ℚ × ℚ) :=
  scatterLoop margin min_dist pts 0 n []

/-! ### Placement engine: random_positions_symmetric (nvr_draw_container_svg.py) -/

/-- Attempt caps of the source (`MAX_PLACEMENT_ATTEMPTS = 2000`,
`MAX_PLACEMENT_ATTEMPTS_SYMMETRIC = 6000`). -/
def MAX_PLACEMENT_ATTEMPTS : Nat := 2000

/-- Attempt cap of the symmetric placement loop. -/
def MAX_PLACEMENT_ATTEMPTS_SYMMETRIC : Nat := 6000

/-- The four symmetry-line keys accepted by the placement code. -/
inductive Symmetry
  | vertical
  | horizontal
  | diagonal_slash
  | diagonal_backslash
deriving DecidableEq

/-- Translation of `_mirror_point(x, y, symmetry)`. -/
def mirror_point (x y : ℚ) : Symmetry → ℚ × ℚ
  | Symmetry.vertical => (100 - x, y)
  | Symmetry.horizontal => (x, 100 - y)
  | Symmetry.diagonal_slash => (y, x)
  | Symmetry.diagonal_backslash => (100 - y, 100 - x)

/-- Vertical-mirror image of a point, `_mirror_point` with symmetry `"vertical"`. -/
def mirrorV (p : ℚ × ℚ) : ℚ × ℚ := mirror_point p.1 p.2 Symmetry.vertical

/-- Translation of `_in_canonical_half(x, y, symmetry)`. -/
def in_canonical_half (x y : ℚ) : Symmetry → Bool
  | Symmetry.vertical => decide (x ≤ 50)
  | Symmetry.horizontal => decide (y ≤ 50)
  | Symmetry.diagonal_slash => decide (x ≤ y)
  | Symmetry.diagonal_backslash => decide (x + y ≤ 100)

/-- The comparison `_distance_from_symmetry_line(x, y, symmetry) < bound` in exact
form: for the diagonal symmetries the distance is `|x - y| / sqrt 2` (resp.
`|x + y - 100| / sqrt 2`), so the comparison is taken in squared form, which is
equivalent because the distance is nonnegative. -/
def distFromLineLt (x y : ℚ) (sym : Symmetry) (bound : ℚ) : Bool :=
  match sym with
  | Symmetry.vertical => decide (|x - 50| < bound)
  | Symmetry.horizontal => decide (|y - 50| < bound)
  | Symmetry.diagonal_slash => decide (0 < bound ∧ (x - y) ^ 2 < 2 * bound ^ 2)
  | Symmetry.diagonal_backslash => decide (0 < bound ∧ (x + y - 100) ^ 2 < 2 * bound ^ 2)

/-- Translation of `_canonical_half_bounds_for_pairs(bounds, symmetry,
min_dist_from_line)`. -/
def canonical_half_bounds_for_pairs (bounds : ℚ × ℚ × ℚ × ℚ) (sym : Symmetry)
    (min_dist_from_line : ℚ) : ℚ × ℚ × ℚ × ℚ :=
  match sym with
  | Symmetry.vertical => (bounds.1, 50 - min_dist_from_line, bounds.2.2.1, bounds.2.2.2)
  | Symmetry.horizontal => (bounds.1, bounds.2.1, bounds.2.2.1, 50 - min_dist_from_line)
  | _ => bounds

/-- Translation of `rng.uniform(a, b) = a + (b - a) * random()`, with `u` the unit
draw. -/
def uniform (a b u : ℚ) : ℚ := a + (b - a) * u

/-- Translation of the `accept_pair(cx, cy)` closure of
`random_positions_symmetric`. -/
def accept_pair (sym : Symmetry) (inside : ℚ → ℚ → Bool) (min_dist : ℚ)
    (positions : List (ℚ × ℚ)) (cx cy : ℚ) : Bool :=
  if in_canonical_half cx cy sym = false then false
  else if inside cx cy = false then false
  else
    let m := mirror_point cx cy sym
    if inside m.1 m.2 = false then false
    else if (cx, cy) = m then positions.all (fun p => distGe (cx, cy) p min_dist)
    else if distFromLineLt cx cy sym (min_dist / 2) then false
    else positions.all (fun p => distGe (cx, cy) p min_dist && distGe m p min_dist)

/-- One candidate of `_sample_on_symmetry_line`: the point drawn on the mirror line
from one unit draw. -/
def sampleOnLinePoint (sym : Symmetry) (bounds : ℚ × ℚ × ℚ × ℚ) (u : ℚ) : ℚ × ℚ :=
  match sym with
  | Symmetry.vertical => (50, uniform bounds.2.2.1 bounds.2.2.2 u)
  | Symmetry.horizontal => (uniform bounds.1 bounds.2.1 u, 50)
  | Symmetry.diagonal_slash =>
      let t := uniform (max bounds.1 bounds.2.2.1) (min bounds.2.1 bounds.2.2.2) u
      (t, t)
  | Symmetry.diagonal_backslash =>
      let t := uniform (max bounds.1 (100 - bounds.2.2.2))
        (min bounds.2.1 (100 - bounds.2.2.1)) u
      (t, 100 - t)

/-- Translation of `_sample_on_symmetry_line(rng, symmetry, inside_check, bounds,
min_dist, existing)`: up to `MAX_PLACEMENT_ATTEMPTS` candidates on the line, accepted
when inside and at distance ≥ `min_dist` from every existing position.  Returns the
point together with the next stream index. -/
def sample_on_symmetry_line (sym : Symmetry) (inside : ℚ → ℚ → Bool)
    (bounds : ℚ × ℚ × ℚ × ℚ) (min_dist : ℚ) (positions : List (ℚ × ℚ))
    (u : Nat → ℚ) : Nat → Nat → Option ((ℚ × ℚ) × Nat)
  | _, 0 => none
  | k, fuel + 1 =>
    let c := sampleOnLinePoint sym bounds (u k)
    if inside c.1 c.2 && positions.all (fun p => distGe c p min_dist) then some (c, k + 1)
    else sample_on_symmetry_line sym inside bounds min_dist positions u (k + 1) fuel

/-- The `while len(positions) < count and attempts < max_attempts` loop of
`random_positions_symmetric`: in the pair phase (`len < 2 * need_pairs` with
`need_pairs = count // 2`) draw a candidate in the inset canonical-half bounds and, on
`accept_pair`, append the point and its mirror; once the pairs are placed, an odd
`count` draws the final point on the symmetry line. -/
def rpsGo (sym : Symmetry) (inside : ℚ → ℚ → Bool) (min_dist : ℚ)
    (bounds : ℚ × ℚ × ℚ × ℚ) (count : Nat) (u : Nat → ℚ) :
    Nat → Nat → List (ℚ × ℚ) → List (ℚ × ℚ)
  | _, 0, positions => positions
  | k, fuel + 1, positions =>
    if positions.length < count then
      if positions.length < 2 * (count / 2) then
        let pb := canonical_half_bounds_for_pairs bounds sym (min_dist / 2)
        let cx := uniform pb.1 pb.2.1 (u k)
        let cy := uniform pb.2.2.1 pb.2.2.2 (u (k + 1))
        if accept_pair sym inside min_dist positions cx cy then
          rpsGo sym inside min_dist bounds count u (k + 2) fuel
            (positions ++ [(cx, cy), mirror_point cx cy sym])
        else rpsGo sym inside min_dist bounds count u (k + 2) fuel positions
      else if count % 2 = 1 ∧ positions.length = count - 1 then
        match sample_on_symmetry_line sym inside bounds min_dist positions u k
            MAX_PLACEMENT_ATTEMPTS with
        | some (c, k2) =>
            rpsGo sym inside min_dist bounds count u k2 fuel (positions ++ [c])
        | none =>
            rpsGo sym inside min_dist bounds count u (k + MAX_PLACEMENT_ATTEMPTS) fuel
              positions
      else rpsGo sym inside min_dist bounds count u k fuel positions
    else positions

/-- Translation of `random_positions_symmetric(count, symmetry, min_dist, seed,
inside_check, bounds)`: run the loop with the symmetric attempt cap, then
`raise SystemExit` if fewer than `count` positions were placed. -/
def random_positions_symmetric (count : Nat) (sym : Symmetry) (min_dist : ℚ)
    (inside : ℚ → ℚ → Bool) (bounds : ℚ × ℚ × ℚ × ℚ) (u : Nat → ℚ) :
    Except String (List (ℚ × ℚ)) :=
  let positions :=
    rpsGo sym inside min_dist bounds count u 0 MAX_PLACEMENT_ATTEMPTS_SYMMETRIC []
  if positions.length < count then
    Except.error "Could not place motifs with layout-symmetry in attempts"
  else Except.ok positions

/-- The mirrored-pair block contributed by the pair phase: each canonical point is
immediately followed by its mirror image. -/
def mirrorPairs (pts : List (ℚ × ℚ)) : List (ℚ × ℚ) :=
  pts.flatMap (fun p => [p, mirrorV p])

/-- Loop invariant of the vertical-symmetry placement: the position list is a
sequence of canonical/mirror pairs with every canonical point strictly left of the
line, optionally (odd `count`, once complete) followed by one on-line point. -/
def rpsVerticalInv (count : Nat) (positions : List (ℚ × ℚ)) : Prop :=
  (∃ pts, positions = mirrorPairs pts ∧ ∀ p ∈ pts, p.1 < 50) ∨
  (count % 2 = 1 ∧ positions.length = count ∧
    ∃ pts q, positions = mirrorPairs pts ++ [q] ∧ (∀ p ∈ pts, p.1 < 50) ∧ q.1 = 50)

/-! ### Seeded rendering determinism (nvr_draw_layout.py render path) -/

/-- Motif cell half-size, border margin and derived placement bounds
(`CELL_HALF = 6.25`, `BORDER_MARGIN = 1.0`, `MIN_CENTRE = 12 + CELL_HALF +
BORDER_MARGIN`, `MAX_CENTRE = 85 - CELL_HALF - BORDER_MARGIN`,
`MIN_DISTANCE = MIN_CENTRE_TO_CENTRE = 12.0`). -/
def CELL_HALF : ℚ := 6.25

/-- Border margin of the placement bounds. -/
def BORDER_MARGIN : ℚ := 1

/-- Default lower placement bound. -/
def MIN_CENTRE : ℚ := 12 + CELL_HALF + BORDER_MARGIN

/-- Default upper placement bound. -/
def MAX_CENTRE : ℚ := 85 - CELL_HALF - BORDER_MARGIN

/-- Default minimum centre-to-centre distance. -/
def MIN_DISTANCE : ℚ := 12

/-- One step of a linear congruential generator. -/
def lcgNext (s : Nat) : Nat := (1103515245 * s + 12345) % 2147483648

/-- State stream of the generator from a seed. -/
def lcgState (seed : Int) : Nat → Nat
  | 0 => (seed.emod 2147483648).toNat
  | n + 1 => lcgNext (lcgState seed n)

/-- Modelled from the spec: `random.Random(seed)` — the seeded Mersenne Twister of the
Python standard library, which is not part of this repository — is modelled as a
deterministic stream of unit draws that is a pure function of the seed (here a simple
linear congruential generator).  The only property of the generator that the
determinism claim relies on is exactly this: with an explicit seed, the draw sequence
is a function of the seed and of nothing else. -/
def seedUnit (seed : Int) (n : Nat) : ℚ :=
  (lcgState seed (n + 1) : ℚ) / 2147483648

/-- `random_positions` with `rng = random.Random(seed)`: candidate `i` is built from
the `2i`-th and `2i+1`-st unit draws via `rng.uniform` over the bounds. -/
def random_positions_seeded (count : Nat) (min_dist : ℚ) (inside : ℚ → ℚ → Bool)
    (bounds : ℚ × ℚ × ℚ × ℚ) (limit : Nat) (seed : Int) :
    Except String (List (ℚ × ℚ)) :=
  random_positions count min_dist inside
    (fun i => (uniform bounds.1 bounds.2.1 (seedUnit seed (2 * i)),
               uniform bounds.2.2.1 bounds.2.2.2 (seedUnit seed (2 * i + 1)))) limit

/-- `_scatter_positions` with `rng = random.Random(seed)` as built by
`render_scatter`. -/
def scatter_positions_seeded (n : Nat) (margin min_dist : ℚ) (seed : Int) :
    List (ℚ × ℚ) :=
  scatter_positions n margin min_dist
    (fun i => (uniform margin (100 - margin) (seedUnit seed (2 * i)),
               uniform margin (100 - margin) (seedUnit seed (2 * i + 1))))

/-- Fixed-point decimal formatting of a rational, modelling Python's `f"{x:.2f}"` /
`f"{x:.4f}"` (rounding of the scaled value to the nearest integer; ties differ from
Python's half-even rounding only on exact ties, which does not affect determinism). -/
def fmtFixed (decimals : Nat) (q : ℚ) : String :=
  let scale : Int := (10 : Int) ^ decimals
  let n : Int := Int.floor (q * (scale : ℚ) + 1 / 2)
  let sign := if n < 0 then "-" else ""
  let m := n.natAbs
  let whole := m / scale.natAbs
  let fracDigits := toString (m % scale.natAbs)
  let pad := String.mk (List.replicate (decimals - fracDigits.length) (Char.ofNat 48))
  sign ++ toString whole ++ "." ++ pad ++ fracDigits

/-- Translation of `_place_fragment(fragment, cx, cy, scale)`. -/
def place_fragment (fragment : String) (cx cy scale : ℚ) : String :=
  let indented := String.intercalate "\n"
    ((fragment.splitOn "\n").map (fun line => "    " ++ line))
  "  <g transform=\"translate(" ++ fmtFixed 2 cx ++ ", " ++ fmtFixed 2 cy ++
    ") scale(" ++ fmtFixed 4 scale ++ ") translate(-50, -50)\">\n" ++ indented ++
    "\n  </g>"

/-- Translation of `_svg_wrapper(body, comment)`. -/
def svg_wrapper (body comment : String) : String :=
  "<svg xmlns=\"http://www.w3.org/2000/svg\" viewBox=\"0 0 100 100\" fill=\"none\" stroke=\"#000\" stroke-linecap=\"round\" stroke-linejoin=\"round\">\n"
    ++ "  <!-- " ++ comment ++ " -->\n" ++ body ++ "\n</svg>"

/-- The string-assembly pipeline of `render_scatter` for already-loaded child
fragments: scatter the children with the seeded rng, place each fragment at its
centre, join, and wrap (`body = "\n".join(fragments)`; `_svg_wrapper(body,
"scatter")`). -/
def render_scatter_svg (fragments : List String) (margin min_dist scale : ℚ)
    (seed : Int) : String :=
  let positions := scatter_positions_seeded fragments.length margin min_dist seed
  let body := String.intercalate "
"
    ((fragments.zip positions).map (fun fp => place_fragment fp.1 fp.2.1 fp.2.2 scale))
  svg_wrapper body "scatter"

/-! ### Supporting lemmas: lists, counts, find? -/

theorem mem_distinctAux {β : Type} [DecidableEq β] (values : List β) :
    ∀ (acc : List β) (v : β),
      v ∈ values.foldl (fun acc v => if v ∈ acc then acc else acc ++ [v]) acc ↔
        v ∈ acc ∨ v ∈ values := by
  induction values with
  | nil => simp
  | cons x rest ih =>
    intro acc v
    simp only [List.foldl_cons]
    by_cases hx : x ∈ acc
    · rw [if_pos hx, ih]
      constructor
      · rintro (h | h)
        · exact Or.inl h
        · exact Or.inr (List.mem_cons_of_mem _ h)
      · rintro (h | h)
        · exact Or.inl h
        · rcases List.mem_cons.mp h with rfl | h
          · exact Or.inl hx
          · exact Or.inr h
    · rw [if_neg hx, ih]
      simp only [List.mem_append, List.mem_singleton, List.mem_cons]
      tauto

theorem mem_distinctValues {β : Type} [DecidableEq β] (values : List β) (v : β) :
    v ∈ distinctValues values ↔ v ∈ values := by
  rw [distinctValues, mem_distinctAux]
  simp

theorem find?_eq_some_of_unique {β : Type} (p : β → Bool) (x : β) :
    ∀ l : List β, (∀ y ∈ l, p y = true → y = x) → x ∈ l → p x = true →
      l.find? p = some x := by
  intro l
  induction l with
  | nil => intro _ hx _; cases hx
  | cons y rest ih =>
    intro huniq hx hp
    by_cases hy : p y = true
    · have : y = x := huniq y (List.mem_cons_self _ _) hy
      subst this
      simp [List.find?_cons, hy]
    · rw [List.find?_cons]
      have hyx : y ≠ x := fun h => hy (h ▸ hp)
      have hx' : x ∈ rest := by
        rcases List.mem_cons.mp hx with h | h
        · exact absurd h.symm hyx
        · exact h
      simp only [Bool.not_eq_true] at hy
      rw [hy]
      exact ih (fun z hz hpz => huniq z (List.mem_cons_of_mem _ hz) hpz) hx' hp

theorem count_pair_le_length {β : Type} [DecidableEq β] (a b : β) (hab : a ≠ b) :
    ∀ l : List β, l.count a + l.count b ≤ l.length := by
  intro l
  induction l with
  | nil => simp
  | cons v rest ih =>
    simp only [List.count_cons, List.length_cons, beq_iff_eq]
    by_cases hva : v = a
    · rw [if_pos hva, if_neg (fun h => hab (hva.symm.trans h))]
      omega
    · by_cases hvb : v = b
      · rw [if_neg hva, if_pos hvb]
        omega
      · rw [if_neg hva, if_neg hvb]
        omega

theorem count_pair_exhaustive {β : Type} [DecidableEq β] (a b : β) (hab : a ≠ b) :
    ∀ l : List β, l.count a + l.count b = l.length → ∀ v ∈ l, v = a ∨ v = b := by
  intro l
  induction l with
  | nil => intro _ v hv; cases hv
  | cons w rest ih =>
    intro hsum v hv
    have hle := count_pair_le_length a b hab rest
    simp only [List.count_cons, List.length_cons, beq_iff_eq] at hsum
    by_cases hwa : w = a
    · rcases List.mem_cons.mp hv with rfl | hv'
      · exact Or.inl hwa
      · refine ih ?_ v hv'
        rw [if_pos hwa, if_neg (fun h => hab (hwa.symm.trans h))] at hsum
        omega
    · by_cases hwb : w = b
      · rcases List.mem_cons.mp hv with rfl | hv'
        · exact Or.inr hwb
        · refine ih ?_ v hv'
          rw [if_neg hwa, if_pos hwb] at hsum
          omega
      · exfalso
        rw [if_neg hwa, if_neg hwb] at hsum
        omega

theorem count_triple_le_length {β : Type} [DecidableEq β] (a b c : β)
    (hab : a ≠ b) (hac : a ≠ c) (hbc : b ≠ c) :
    ∀ l : List β, l.count a + l.count b + l.count c ≤ l.length := by
  intro l
  induction l with
  | nil => simp
  | cons v rest ih =>
    simp only [List.count_cons, List.length_cons, beq_iff_eq]
    by_cases hva : v = a
    · rw [if_pos hva, if_neg (fun h => hab (hva.symm.trans h)),
        if_neg (fun h => hac (hva.symm.trans h))]
      omega
    · by_cases hvb : v = b
      · rw [if_neg hva, if_pos hvb, if_neg (fun h => hbc (hvb.symm.trans h))]
        omega
      · by_cases hvc : v = c
        · rw [if_neg hva, if_neg hvb, if_pos hvc]
          omega
        · rw [if_neg hva, if_neg hvb, if_neg hvc]
          omega

theorem count_triple_exhaustive {β : Type} [DecidableEq β] (a b c : β)
    (hab : a ≠ b) (hac : a ≠ c) (hbc : b ≠ c) :
    ∀ l : List β, l.count a + l.count b + l.count c = l.length →
      ∀ v ∈ l, v = a ∨ v = b ∨ v = c := by
  intro l
  induction l with
  | nil => intro _ v hv; cases hv
  | cons w rest ih =>
    intro hsum v hv
    have hle := count_triple_le_length a b c hab hac hbc rest
    simp only [List.count_cons, List.length_cons, beq_iff_eq] at hsum
    by_cases hwa : w = a
    · rcases List.mem_cons.mp hv with rfl | hv'
      · exact Or.inl hwa
      · refine ih ?_ v hv'
        rw [if_pos hwa, if_neg (fun h => hab (hwa.symm.trans h)),
          if_neg (fun h => hac (hwa.symm.trans h))] at hsum
        omega
    · by_cases hwb : w = b
      · rcases List.mem_cons.mp hv with rfl | hv'
        · exact Or.inr (Or.inl hwb)
        · refine ih ?_ v hv'
          rw [if_neg hwa, if_pos hwb, if_neg (fun h => hbc (hwb.symm.trans h))] at hsum
          omega
      · by_cases hwc : w = c
        · rcases List.mem_cons.mp hv with rfl | hv'
          · exact Or.inr (Or.inr hwc)
          · refine ih ?_ v hv'
            rw [if_neg hwa, if_neg hwb, if_pos hwc] at hsum
            omega
        · exfalso
          rw [if_neg hwa, if_neg hwb, if_neg hwc] at hsum
          omega

theorem oddIndicesAux_of_count_zero {β : Type} [DecidableEq β] (odd : β) :
    ∀ (l : List β), l.count odd = 0 → ∀ i0, oddIndicesAux odd l i0 = [] := by
  intro l
  induction l with
  | nil => intro _ _; rfl
  | cons v rest ih =>
    intro hc i0
    simp only [List.count_cons, beq_iff_eq] at hc
    by_cases hv : v = odd
    · rw [if_pos hv] at hc
      omega
    · rw [if_neg hv] at hc
      rw [oddIndicesAux, if_neg hv]
      exact ih hc _

theorem oddIndicesAux_of_count_one {β : Type} [DecidableEq β] (odd : β) :
    ∀ (l : List β), l.count odd = 1 →
      ∃ k, l[k]? = some odd ∧ (∀ j, l[j]? = some odd → j = k) ∧
        ∀ i0, oddIndicesAux odd l i0 = [i0 + k] := by
  intro l
  induction l with
  | nil => intro h; simp [List.count_nil] at h
  | cons v rest ih =>
    intro hc
    simp only [List.count_cons, beq_iff_eq] at hc
    by_cases hv : v = odd
    · rw [if_pos hv] at hc
      have hrest : rest.count odd = 0 := by omega
      refine ⟨0, by simp [hv], ?_, ?_⟩
      · intro j hj
        match j with
        | 0 => rfl
        | Nat.succ j' =>
          exfalso
          have : odd ∈ rest := by
            simp only [List.getElem?_cons_succ] at hj
            exact List.getElem?_mem hj
          rw [← List.count_pos_iff] at this
          omega
      · intro i0
        rw [oddIndicesAux, if_pos hv, oddIndicesAux_of_count_zero odd rest hrest]
        simp
    · rw [if_neg hv] at hc
      obtain ⟨k, hk, huniq, haux⟩ := ih hc
      refine ⟨k + 1, by simpa using hk, ?_, ?_⟩
      · intro j hj
        match j with
        | 0 =>
          exfalso
          simp only [List.getElem?_cons_zero, Option.some.injEq] at hj
          exact hv hj
        | Nat.succ j' =>
          simp only [List.getElem?_cons_succ] at hj
          exact congrArg Nat.succ (huniq j' hj)
      · intro i0
        rw [oddIndicesAux, if_neg hv, haux (i0 + 1)]
        have : i0 + 1 + k = i0 + (k + 1) := by omega
        rw [this]

theorem extractValues_ok_length {α β : Type} (f : α → Except String β) :
    ∀ (options : List α) (values : List β),
      extractValues f options = Except.ok values → values.length = options.length := by
  intro options
  induction options with
  | nil =>
    intro values h
    rw [extractValues] at h
    cases h
    rfl
  | cons o rest ih =>
    intro values h
    rw [extractValues] at h
    cases hfo : f o with
    | error e => rw [hfo] at h; cases h
    | ok v =>
      rw [hfo] at h
      cases hrest : extractValues f rest with
      | error e => rw [hrest] at h; cases h
      | ok vs =>
        rw [hrest] at h
        cases h
        simp [ih vs hrest]

theorem propertyConflicts_four_one {β : Type} [DecidableEq β] (name : String) (values : List β)
    (a b : β) (hab : a ≠ b) (hlen : values.length = 5)
    (hca : values.count a = 4) (hcb : values.count b = 1) :
    ∃ k, propertyConflicts name 4 values =
        [{ property := name, answer_index := k, value := b, common_value := a }] ∧
      values[k]? = some b ∧ ∀ j, values[j]? = some b → j = k := by
  have hall : ∀ v ∈ values, v = a ∨ v = b :=
    count_pair_exhaustive a b hab values (by omega)
  have hamem : a ∈ values := by rw [← List.count_pos_iff]; omega
  have hfind4 : (distinctValues values).find? (fun v => values.count v == 4) = some a := by
    apply find?_eq_some_of_unique
    · intro y hy hp
      have hy' := (mem_distinctValues values y).mp hy
      rcases hall y hy' with rfl | rfl
      · rfl
      · rw [hcb] at hp
        cases hp
    · exact (mem_distinctValues values a).mpr hamem
    · simp [hca]
  have hbmem : b ∈ values := by rw [← List.count_pos_iff]; omega
  have hfind1 : (distinctValues values).find? (fun v => values.count v == 1) = some b := by
    apply find?_eq_some_of_unique
    · intro y hy hp
      have hy' := (mem_distinctValues values y).mp hy
      rcases hall y hy' with rfl | rfl
      · rw [hca] at hp
        cases hp
      · rfl
    · exact (mem_distinctValues values b).mpr hbmem
    · simp [hcb]
  obtain ⟨k, hk, huniq, haux⟩ := oddIndicesAux_of_count_one b values hcb
  refine ⟨k, ?_, hk, huniq⟩
  rw [propertyConflicts, hfind4, hfind1]
  simp [oddIndices, haux 0]

theorem propertyConflicts_two_two_one {β : Type} [DecidableEq β] (name : String)
    (values : List β) (a b c : β)
    (hab : a ≠ b) (hac : a ≠ c) (hbc : b ≠ c) (hlen : values.length = 5)
    (hca : values.count a = 2) (hcb : values.count b = 2) (hcc : values.count c = 1) :
    propertyConflicts name 4 values = [] := by
  have hall : ∀ v ∈ values, v = a ∨ v = b ∨ v = c :=
    count_triple_exhaustive a b c hab hac hbc values (by omega)
  have hfind : (distinctValues values).find? (fun v => values.count v == 4) = none := by
    rw [List.find?_eq_none]
    intro x hx
    have hx' := (mem_distinctValues values x).mp hx
    rcases hall x hx' with rfl | rfl | rfl <;> simp [hca, hcb, hcc]
  rw [propertyConflicts, hfind]

theorem check_single_extractor {α β : Type} [DecidableEq β] (options : List α) (name : String)
    (f : α → Except String β) (values : List β)
    (h : extractValues f options = Except.ok values) :
    check_derived_parameters options [(name, f)] =
      propertyConflicts name (options.length - 1) values := by
  simp [check_derived_parameters, h]

/-- C1: for five option records and an extractor P, extracted values with one value of
frequency 4 and one of frequency 1 (the `[A,A,A,A,B]` pattern) yield exactly one conflict
for P, whose `answer_index` is the (unique) index of the B-valued option; values forming a
2-2-1 split (the `[A,A,B,B,C]` pattern) yield no conflict for P. -/
theorem C1_check_derived_parameters_splits {α β : Type} [DecidableEq β] :
    (∀ (options : List α) (name : String) (f : α → Except String β) (values : List β)
        (a b : β),
      options.length = 5 → extractValues f options = Except.ok values → a ≠ b →
      values.count a = 4 → values.count b = 1 →
      ∃ k, check_derived_parameters options [(name, f)] =
          [{ property := name, answer_index := k, value := b, common_value := a }] ∧
        values[k]? = some b ∧ ∀ j, values[j]? = some b → j = k)
  ∧ (∀ (options : List α) (name : String) (f : α → Except String β) (values : List β)
        (a b c : β),
      options.length = 5 → extractValues f options = Except.ok values →
      a ≠ b → a ≠ c → b ≠ c →
      values.count a = 2 → values.count b = 2 → values.count c = 1 →
      check_derived_parameters options [(name, f)] = []) := by
  constructor
  · intro options name f values a b hlen hex hab hca hcb
    have hvlen : values.length = 5 := (extractValues_ok_length f options values hex).trans hlen
    obtain ⟨k, hres, hk, huniq⟩ := propertyConflicts_four_one name values a b hab hvlen hca hcb
    refine ⟨k, ?_, hk, huniq⟩
    rw [check_single_extractor options name f values hex, hlen]
    exact hres
  · intro options name f values a b c hlen hex hab hac hbc hca hcb hcc
    have hvlen : values.length = 5 := (extractValues_ok_length f options values hex).trans hlen
    rw [check_single_extractor options name f values hex, hlen]
    exact propertyConflicts_two_two_one name values a b c hab hac hbc hvlen hca hcb hcc

/-- Witness for C1 at concrete inputs: values `[0,0,0,0,1]` (4:1 split, odd option at
index 4) and `[0,0,1,1,2]` (2-2-1 split, no conflict). -/
theorem C1_check_derived_parameters_splits_witness :
    (∃ k, check_derived_parameters ([0, 0, 0, 0, 1] : List Nat) [("P", fun o => Except.ok o)] =
        [{ property := "P", answer_index := k, value := 1, common_value := 0 }] ∧
      ([0, 0, 0, 0, 1] : List Nat)[k]? = some 1 ∧
      ∀ j, ([0, 0, 0, 0, 1] : List Nat)[j]? = some 1 → j = k)
  ∧ check_derived_parameters ([0, 0, 1, 1, 2] : List Nat) [("Q", fun o => Except.ok o)] = [] :=
  ⟨(C1_check_derived_parameters_splits.1 [0, 0, 0, 0, 1] "P" (fun o => Except.ok o)
      [0, 0, 0, 0, 1] 0 1 rfl rfl (by decide) (by decide) (by decide)),
   (C1_check_derived_parameters_splits.2 [0, 0, 1, 1, 2] "Q" (fun o => Except.ok o)
      [0, 0, 1, 1, 2] 0 1 2 rfl rfl (by decide) (by decide) (by decide)
      (by decide) (by decide) (by decide))⟩

/-- C9 counterexample: an extractor that raises (`Except.error`) on the single option does
not propagate out of `check_derived_parameters`; the call returns normally with `[]`
(the `try`/`except Exception: continue` in the source catches it). -/
theorem C9_counterexample_extractor_error_swallowed :
    extractValues (fun _ => (Except.error "KeyError" : Except String Nat)) ([0] : List Nat) =
        Except.error "KeyError"
  ∧ check_derived_parameters ([0] : List Nat)
      [("P", fun _ => (Except.error "KeyError" : Except String Nat))] = [] :=
  ⟨rfl, rfl⟩

/-- C9 amended: an exception raised by an extractor is caught inside
`check_derived_parameters`; the failing property is skipped (contributing no conflicts)
and the remaining extractors are processed as if it had not been supplied. -/
theorem C9_amended_failing_extractor_skipped {α β : Type} [DecidableEq β]
    (options : List α) (name : String) (f : α → Except String β) (e : String)
    (rest : List (String × (α → Except String β)))
    (hf : extractValues f options = Except.error e) :
    check_derived_parameters options ((name, f) :: rest) =
      check_derived_parameters options rest := by
  simp [check_derived_parameters, hf]

/-- Witness for the amended C9: a failing extractor followed by a working one. -/
theorem C9_amended_failing_extractor_skipped_witness :
    check_derived_parameters ([0] : List Nat)
      [("P", fun _ => (Except.error "KeyError" : Except String Nat)),
       ("Q", fun o => Except.ok o)] =
    check_derived_parameters ([0] : List Nat) [("Q", fun o => Except.ok o)] :=
  C9_amended_failing_extractor_skipped [0] "P" _ "KeyError" _ rfl

theorem mem_of_filteredSplits (splits : List (List Nat)) (mv : Option Nat) (s : List Nat)
    (h : s ∈ filteredSplits splits mv) : s ∈ splits := by
  cases mv with
  | none => exact h
  | some m => exact List.mem_of_mem_filter h

theorem sample_split_subset_allowed (n choose : Nat) (mv : Option Nat) (s : List Nat)
    (h : sample_split n choose mv = Except.ok s) : s ∈ ALLOWED_SPLITS n := by
  unfold sample_split at h
  dsimp only at h
  split at h
  · cases h
  · split at h
    · cases h
    · cases h
      exact mem_of_filteredSplits _ _ _ (List.get_mem _ _ _)

/-- C2: every successful `sample_split(5, rng, max_values)` result is one of the five
allowed splits for 5 options, and in particular is never `(4, 1)`. -/
theorem C2_sample_split_five_allowed (choose : Nat) (mv : Option Nat) (s : List Nat)
    (h : sample_split 5 choose mv = Except.ok s) :
    s ∈ [[2, 3], [3, 1, 1], [2, 2, 1], [2, 1, 1, 1], [1, 1, 1, 1, 1]] ∧ s ≠ [4, 1] := by
  have hmem : s ∈ ALLOWED_SPLITS 5 := sample_split_subset_allowed 5 choose mv s h
  rw [show ALLOWED_SPLITS 5 =
      [[2, 3], [3, 1, 1], [2, 2, 1], [2, 1, 1, 1], [1, 1, 1, 1, 1]] from rfl] at hmem
  refine ⟨hmem, ?_⟩
  simp only [List.mem_cons, List.not_mem_nil, or_false] at hmem
  rcases hmem with rfl | rfl | rfl | rfl | rfl <;> decide

/-- Witness for C2: `sample_split 5 0 none` returns `(2, 3)`. -/
theorem C2_sample_split_five_allowed_witness :
    [2, 3] ∈ [[2, 3], [3, 1, 1], [2, 2, 1], [2, 1, 1, 1], [1, 1, 1, 1, 1]] ∧
      [2, 3] ≠ [4, 1] :=
  C2_sample_split_five_allowed 0 none [2, 3] rfl

theorem listSwap_length {γ : Type} (l : List γ) (i j : Nat) :
    (listSwap l i j).length = l.length := by
  unfold listSwap
  cases h1 : l[i]? with
  | none => rfl
  | some a =>
    cases h2 : l[j]? with
    | none => rfl
    | some b => simp [List.length_set]

theorem shuffleGo_length {γ : Type} (g : Nat → Nat) :
    ∀ (k : Nat) (l : List γ), (shuffleGo g k l).length = l.length
  | 0, _ => rfl
  | 1, _ => rfl
  | (i + 2), l => by
    rw [shuffleGo, shuffleGo_length g (i + 1), listSwap_length]

theorem shuffle_length {γ : Type} (g : Nat → Nat) (l : List γ) :
    (shuffle g l).length = l.length := shuffleGo_length g l.length l

theorem enumFrom_flatMap_replicate_length (split : List Nat) :
    ∀ i : Nat,
      ((List.enumFrom i split).flatMap (fun p => List.replicate p.2 p.1)).length = split.sum := by
  induction split with
  | nil => intro i; rfl
  | cons c rest ih =>
    intro i
    simp [List.enumFrom, List.sum_cons, ih (i + 1)]

/-- C10: `assign_split_to_indices` raises `ValueError` exactly when the split's counts do
not sum to `n_options`; otherwise it returns a list of exactly `n_options` value indices. -/
theorem C10_assign_split_to_indices_spec (split : List Nat) (n : Nat) (g : Nat → Nat) :
    (split.sum ≠ n →
      assign_split_to_indices split n g = Except.error "Split does not sum to n_options")
  ∧ (split.sum = n →
      ∃ l, assign_split_to_indices split n g = Except.ok l ∧ l.length = n) := by
  constructor
  · intro h
    rw [assign_split_to_indices, if_pos h]
  · intro h
    refine ⟨shuffle g (split.enum.flatMap (fun p => List.replicate p.2 p.1)), ?_, ?_⟩
    · rw [assign_split_to_indices, if_neg (by simp [h])]
    · rw [shuffle_length, List.enum]
      rw [enumFrom_flatMap_replicate_length split 0]
      exact h

/-- Witness for C10: `(2,2)` does not sum to 5 and errors; `(2,3)` sums to 5 and returns
a 5-element assignment. -/
theorem C10_assign_split_to_indices_spec_witness :
    assign_split_to_indices [2, 2] 5 (fun _ => 0) =
        Except.error "Split does not sum to n_options"
  ∧ ∃ l, assign_split_to_indices [2, 3] 5 (fun _ => 0) = Except.ok l ∧ l.length = 5 :=
  ⟨(C10_assign_split_to_indices_spec [2, 2] 5 (fun _ => 0)).1 (by decide),
   (C10_assign_split_to_indices_spec [2, 3] 5 (fun _ => 0)).2 (by decide)⟩


/-- C3: evaluation of the wedge construction at the failing input.  For a hexagon
(6 sides) with 3 radial sections the divisibility precondition holds, yet the emitted
wedges are the elementary triangles 0, 2 and 4 only: the triangles over edges 1, 3 and 5
are covered by no wedge, so the wedges do not partition the polygon (gaps).  With
`sections = sides` (step 1) the wedges do cover every elementary triangle exactly once. -/
theorem C3_hexagon_three_sections_wedges_leave_gaps :
    6 % 3 = 0 ∧
    radialWedgeIndexPairs 6 3 = [(0, 1), (2, 3), (4, 5)] ∧
    (radialWedgeIndexPairs 6 3).map Prod.fst = [0, 2, 4] ∧
    ¬ ((radialWedgeIndexPairs 6 3).map Prod.fst).Perm (List.range 6) ∧
    (radialWedgeIndexPairs 6 6).map Prod.fst = List.range 6 := by
  refine ⟨rfl, rfl, rfl, ?_, rfl⟩
  decide

/-- C4 counterexample: a hexagon with 4 radial sections — a count that does not
divide the 6 sides — reaches the 4-quadrant fallback of `build_partitioned_sections`
with no error: the engine silently substitutes quadrant clipping for exactly the
request the claim says is rejected.  The in-repo XML path (`xml_to_svg.py`, calling
`single_shape_renderer.render_shape_to_svg`) reaches the engine without the CLI
divisibility guard, so such a request raises no configuration error. -/
theorem C4_counterexample_hexagon_four_sections_quadrant_clip :
    6 % 4 ≠ 0 ∧
    build_radial_construction "hexagon" 6 4 = RadialConstruction.quadrantClip := by
  decide

/-- C4 amended: for a radial partition of a regular polygon whose side count the
section count does not divide, the partition engine `build_partitioned_sections`
raises `ValueError` only when the section count differs from 4; with exactly 4
sections it silently substitutes quadrant clipping.  The CLI entry point `main`
additionally validates divisibility for regular polygons and raises `SystemExit` for
every non-dividing count, including 4 — but only requests routed through the CLI get
that check. -/
theorem C4_amended_radial_nondividing_dispatch (shape : String) (sides k : Nat)
    (hs : regularPolygonSides shape = some sides) (hk : sides % k ≠ 0) :
    (k ≠ 4 → build_radial_construction shape sides k =
      RadialConstruction.configError
        "Radial partition for irregular shape requires exactly 4 sections.")
  ∧ (k = 4 → build_radial_construction shape sides k = RadialConstruction.quadrantClip)
  ∧ radialSectionValidate shape sides k =
      Except.error "Radial partition: number of radial sections must divide sides" := by
  have hmem : shape ∈ SHAPES_REGULAR_POLYGON := by
    unfold regularPolygonSides at hs
    split_ifs at hs <;> simp_all [SHAPES_REGULAR_POLYGON]
  have hcond : ¬ (shape ∈ SHAPES_REGULAR_POLYGON ∧ sides % k = 0) := by
    rintro ⟨-, h⟩
    exact hk h
  refine ⟨?_, ?_, ?_⟩
  · intro h4
    rw [build_radial_construction, if_neg hcond, if_pos h4]
  · intro h4
    rw [build_radial_construction, if_neg hcond, if_neg (fun hne => hne h4)]
  · rw [radialSectionValidate, if_pos hmem, if_pos hk]

/-- Witness for the amended C4: a hexagon with 4 sections is silently
quadrant-clipped by the engine, a pentagon with 3 sections raises the engine
`ValueError`, and the CLI guard rejects the hexagon request. -/
theorem C4_amended_radial_nondividing_dispatch_witness :
    build_radial_construction "hexagon" 6 4 = RadialConstruction.quadrantClip
  ∧ build_radial_construction "pentagon" 5 3 =
      RadialConstruction.configError
        "Radial partition for irregular shape requires exactly 4 sections."
  ∧ radialSectionValidate "hexagon" 6 4 =
      Except.error "Radial partition: number of radial sections must divide sides" :=
  ⟨(C4_amended_radial_nondividing_dispatch "hexagon" 6 4 rfl (by decide)).2.1 rfl,
   (C4_amended_radial_nondividing_dispatch "pentagon" 5 3 rfl (by decide)).1
     (by decide),
   (C4_amended_radial_nondividing_dispatch "hexagon" 6 4 rfl (by decide)).2.2⟩

theorem foldl_min_le {γ : Type} [LinearOrder γ] :
    ∀ (l : List γ) (a : γ), l.foldl min a ≤ a ∧ ∀ x ∈ l, l.foldl min a ≤ x := by
  intro l
  induction l with
  | nil => intro a; exact ⟨le_refl a, by intro x hx; cases hx⟩
  | cons b rest ih =>
    intro a
    rw [List.foldl_cons]
    refine ⟨le_trans (ih (min a b)).1 (min_le_left a b), ?_⟩
    intro x hx
    rcases List.mem_cons.mp hx with rfl | hx'
    · exact le_trans (ih (min a x)).1 (min_le_right a x)
    · exact (ih (min a b)).2 x hx'

theorem foldl_min_mem {γ : Type} [LinearOrder γ] :
    ∀ (l : List γ) (a : γ), l.foldl min a ∈ a :: l := by
  intro l
  induction l with
  | nil => intro a; exact List.mem_cons_self a []
  | cons b rest ih =>
    intro a
    rw [List.foldl_cons]
    have h := ih (min a b)
    rcases List.mem_cons.mp h with h' | h'
    · rw [h']
      rcases min_choice a b with hm | hm
      · rw [hm]
        exact List.mem_cons_self _ _
      · rw [hm]
        exact List.mem_cons_of_mem _ (List.mem_cons_self _ _)
    · exact List.mem_cons_of_mem _ (List.mem_cons_of_mem _ h')

theorem foldl_max_ge {γ : Type} [LinearOrder γ] :
    ∀ (l : List γ) (a : γ), a ≤ l.foldl max a ∧ ∀ x ∈ l, x ≤ l.foldl max a := by
  intro l
  induction l with
  | nil => intro a; exact ⟨le_refl a, by intro x hx; cases hx⟩
  | cons b rest ih =>
    intro a
    rw [List.foldl_cons]
    refine ⟨le_trans (le_max_left a b) (ih (max a b)).1, ?_⟩
    intro x hx
    rcases List.mem_cons.mp hx with rfl | hx'
    · exact le_trans (le_max_right a x) (ih (max a x)).1
    · exact (ih (max a b)).2 x hx'

theorem foldl_max_mem {γ : Type} [LinearOrder γ] :
    ∀ (l : List γ) (a : γ), l.foldl max a ∈ a :: l := by
  intro l
  induction l with
  | nil => intro a; exact List.mem_cons_self a []
  | cons b rest ih =>
    intro a
    rw [List.foldl_cons]
    have h := ih (max a b)
    rcases List.mem_cons.mp h with h' | h'
    · rw [h']
      rcases max_choice a b with hm | hm
      · rw [hm]
        exact List.mem_cons_self _ _
      · rw [hm]
        exact List.mem_cons_of_mem _ (List.mem_cons_self _ _)
    · exact List.mem_cons_of_mem _ (List.mem_cons_of_mem _ h')

/-- C8 counterexample: the bounding box the catalog returns for the semicircle is the
bounding box of the full circle, `(8, 92, 25.5, 109.5)`; it is not the semicircle's
tight analytic extent, because every point of the semicircle has `y ≤ 67.5`, so the
`y_max = 109.5` bound is attained by no point of the shape. -/
theorem C8_counterexample_semicircle_bbox_not_tight :
    get_shape_bbox "semicircle" [] = (8, 92, 25.5, 109.5) ∧
    ¬ isTightBBoxFor (get_shape_bbox "semicircle" []) inSemicircleShape := by
  have hbox : get_shape_bbox "semicircle" [] = (8, 92, 25.5, 109.5) := by
    rw [get_shape_bbox, if_neg (by decide : ¬ ("semicircle" = "circle")), if_pos rfl]
    norm_num [SEMICIRCLE_RADIUS]
  refine ⟨hbox, ?_⟩
  rintro ⟨-, -, -, -, x, y, hS, hy⟩
  rw [hbox] at hy
  have h2 : y ≤ 67.5 := hS.2
  rw [hy] at h2
  norm_num at h2

/-- C8 amended: the circle bbox is the tight analytic extent and polygon-shape bboxes
are the tight extent of the vertex list, but the semicircle bbox is the bounding box of
the full circle `(8, 92, 25.5, 109.5)`: it contains the shape yet its `y_max = 109.5`
exceeds the shape's true maximal `y = 67.5`, so it is not the tight analytic extent. -/
theorem C8_amended_bbox_per_shape :
    isTightBBoxFor (get_shape_bbox "circle" []) inCircleShape
  ∧ (∀ x y, inSemicircleShape x y → bboxContains (get_shape_bbox "semicircle" []) x y)
  ∧ (∀ x y, inSemicircleShape x y → y ≤ 67.5)
  ∧ (get_shape_bbox "semicircle" []).2.2.2 = 109.5
  ∧ (∀ (shape : String) (v : ℚ × ℚ) (rest : List (ℚ × ℚ)),
      shape ≠ "circle" → shape ≠ "semicircle" →
      isTightBBoxFor (get_shape_bbox shape (v :: rest))
        (fun x y => (x, y) ∈ v :: rest)) := by
  have hcirc : get_shape_bbox "circle" [] = (15, 85, 15, 85) := by
    rw [get_shape_bbox, if_pos rfl]
    norm_num [CIRCLE_RADIUS]
  have hsemi : get_shape_bbox "semicircle" [] = (8, 92, 25.5, 109.5) := by
    rw [get_shape_bbox, if_neg (by decide : ¬ ("semicircle" = "circle")), if_pos rfl]
    norm_num [SEMICIRCLE_RADIUS]
  refine ⟨⟨?_, ?_, ?_, ?_, ?_⟩, ?_, fun x y h => h.2, by rw [hsemi], ?_⟩
  · intro x y hS
    rw [inCircleShape] at hS
    rw [hcirc]
    norm_num [CIRCLE_RADIUS] at hS
    refine ⟨?_, ?_, ?_, ?_⟩ <;> simp only [bboxContains] <;>
      nlinarith [sq_nonneg (x - 50), sq_nonneg (y - 50), sq_nonneg (x - 15),
        sq_nonneg (x - 85), sq_nonneg (y - 15), sq_nonneg (y - 85)]
  · exact ⟨15, 50, by norm_num [inCircleShape, CIRCLE_RADIUS], by rw [hcirc]⟩
  · exact ⟨85, 50, by norm_num [inCircleShape, CIRCLE_RADIUS], by rw [hcirc]⟩
  · exact ⟨50, 15, by norm_num [inCircleShape, CIRCLE_RADIUS], by rw [hcirc]⟩
  · exact ⟨50, 85, by norm_num [inCircleShape, CIRCLE_RADIUS], by rw [hcirc]⟩
  · intro x y hS
    obtain ⟨h1, h2⟩ := hS
    rw [hsemi]
    norm_num [SEMICIRCLE_RADIUS] at h1
    refine ⟨?_, ?_, ?_, ?_⟩ <;> simp only [bboxContains]
    · nlinarith [sq_nonneg (y - 67.5), sq_nonneg (x - 8)]
    · nlinarith [sq_nonneg (y - 67.5), sq_nonneg (x - 92)]
    · nlinarith [sq_nonneg (x - 50), sq_nonneg (y - 25.5)]
    · norm_num
      linarith
  · intro shape v rest h1 h2
    have hbox : get_shape_bbox shape (v :: rest) =
        ((rest.map Prod.fst).foldl min v.1, (rest.map Prod.fst).foldl max v.1,
         (rest.map Prod.snd).foldl min v.2, (rest.map Prod.snd).foldl max v.2) := by
      rw [get_shape_bbox, if_neg h1, if_neg h2]
    constructor
    · intro x y hxy
      rw [hbox]
      have hx : x ∈ v.1 :: rest.map Prod.fst := by
        have := List.mem_map_of_mem Prod.fst hxy
        simpa using this
      have hy : y ∈ v.2 :: rest.map Prod.snd := by
        have := List.mem_map_of_mem Prod.snd hxy
        simpa using this
      refine ⟨?_, ?_, ?_, ?_⟩
      · rcases List.mem_cons.mp hx with rfl | hx'
        · exact (foldl_min_le _ _).1
        · exact (foldl_min_le _ _).2 x hx'
      · rcases List.mem_cons.mp hx with rfl | hx'
        · exact (foldl_max_ge _ _).1
        · exact (foldl_max_ge _ _).2 x hx'
      · rcases List.mem_cons.mp hy with rfl | hy'
        · exact (foldl_min_le _ _).1
        · exact (foldl_min_le _ _).2 y hy'
      · rcases List.mem_cons.mp hy with rfl | hy'
        · exact (foldl_max_ge _ _).1
        · exact (foldl_max_ge _ _).2 y hy'
    · have hminx := foldl_min_mem (rest.map Prod.fst) v.1
      have hmaxx := foldl_max_mem (rest.map Prod.fst) v.1
      have hminy := foldl_min_mem (rest.map Prod.snd) v.2
      have hmaxy := foldl_max_mem (rest.map Prod.snd) v.2
      have hcast : ∀ q : ℚ, q ∈ v.1 :: rest.map Prod.fst →
          ∃ p, p ∈ v :: rest ∧ p.1 = q := by
        intro q hq
        have : q ∈ (v :: rest).map Prod.fst := by simpa using hq
        obtain ⟨p, hp, hpq⟩ := List.mem_map.mp this
        exact ⟨p, hp, hpq⟩
      have hcast2 : ∀ q : ℚ, q ∈ v.2 :: rest.map Prod.snd →
          ∃ p, p ∈ v :: rest ∧ p.2 = q := by
        intro q hq
        have : q ∈ (v :: rest).map Prod.snd := by simpa using hq
        obtain ⟨p, hp, hpq⟩ := List.mem_map.mp this
        exact ⟨p, hp, hpq⟩
      obtain ⟨p1, hp1, hq1⟩ := hcast _ hminx
      obtain ⟨p2, hp2, hq2⟩ := hcast _ hmaxx
      obtain ⟨p3, hp3, hq3⟩ := hcast2 _ hminy
      obtain ⟨p4, hp4, hq4⟩ := hcast2 _ hmaxy
      refine ⟨⟨p1.1, p1.2, by simpa using hp1, by rw [hbox, hq1]⟩,
              ⟨p2.1, p2.2, by simpa using hp2, by rw [hbox, hq2]⟩,
              ⟨p3.1, p3.2, by simpa using hp3, by rw [hbox, hq3]⟩,
              ⟨p4.1, p4.2, by simpa using hp4, by rw [hbox, hq4]⟩⟩

/-- Witness for the amended C8 at concrete inputs: the semicircle's leftmost flat-edge
point `(8, 67.5)` lies in the returned semicircle box, and the square's bbox is the
tight box of its four vertices. -/
theorem C8_amended_bbox_per_shape_witness :
    bboxContains (get_shape_bbox "semicircle" []) 8 67.5
  ∧ isTightBBoxFor (get_shape_bbox "square" [(17, 17), (83, 17), (83, 83), (17, 83)])
      (fun x y => (x, y) ∈ ([(17, 17), (83, 17), (83, 83), (17, 83)] : List (ℚ × ℚ))) :=
  ⟨C8_amended_bbox_per_shape.2.1 8 67.5 (by norm_num [inSemicircleShape, SEMICIRCLE_RADIUS]),
   C8_amended_bbox_per_shape.2.2.2.2 "square" (17, 17) [(83, 17), (83, 83), (17, 83)]
     (by decide) (by decide)⟩

theorem sqdist_comm (a b : ℚ × ℚ) : sqdist a b = sqdist b a := by
  unfold sqdist
  ring

theorem distGe_comm (a b : ℚ × ℚ) (d : ℚ) : distGe a b d = distGe b a d := by
  unfold distGe
  rw [sqdist_comm]

theorem rpGo_sound (inside : ℚ → ℚ → Bool) (d : ℚ) (count : Nat) (pts : Nat → ℚ × ℚ) :
    ∀ (fuel attempt : Nat) (positions : List (ℚ × ℚ)),
      positions.length ≤ count →
      (∀ p ∈ positions, inside p.1 p.2 = true) →
      List.Pairwise (fun p q => distGe p q d = true) positions →
      (rpGo inside d count pts attempt fuel positions).length ≤ count ∧
      (∀ p ∈ rpGo inside d count pts attempt fuel positions, inside p.1 p.2 = true) ∧
      List.Pairwise (fun p q => distGe p q d = true)
        (rpGo inside d count pts attempt fuel positions) := by
  intro fuel
  induction fuel with
  | zero => intro attempt positions h1 h2 h3; exact ⟨h1, h2, h3⟩
  | succ fuel ih =>
    intro attempt positions h1 h2 h3
    rw [rpGo]
    by_cases hlt : positions.length < count
    · rw [if_pos hlt]
      by_cases hacc : rpAccept inside d positions (pts attempt) = true
      · rw [if_pos hacc]
        unfold rpAccept at hacc
        rw [Bool.and_eq_true] at hacc
        apply ih
        · rw [List.length_append, List.length_singleton]
          omega
        · intro p hp
          rcases List.mem_append.mp hp with hp' | hp'
          · exact h2 p hp'
          · rw [List.mem_singleton] at hp'
            subst hp'
            exact hacc.1
        · rw [List.pairwise_append]
          refine ⟨h3, List.pairwise_singleton _ _, ?_⟩
          intro p hp q hq
          rw [List.mem_singleton] at hq
          subst hq
          have hall := hacc.2
          rw [List.all_eq_true] at hall
          rw [distGe_comm]
          exact hall p hp
      · rw [if_neg hacc]
        exact ih _ _ h1 h2 h3
    · rw [if_neg hlt]
      exact ⟨h1, h2, h3⟩

theorem scatterLoop_length (margin d : ℚ) (pts : Nat → ℚ × ℚ) :
    ∀ (n k : Nat) (positions : List (ℚ × ℚ)),
      (scatterLoop margin d pts k n positions).length = positions.length + n := by
  intro n
  induction n with
  | zero => intro k positions; rfl
  | succ n ih =>
    intro k positions
    rw [scatterLoop]
    cases h : scatterTryOnce d positions pts k 2000 with
    | none =>
      simp only [ih, List.length_append, List.length_singleton]
      omega
    | some ck =>
      obtain ⟨c, k2⟩ := ck
      simp only [ih, List.length_append, List.length_singleton]
      omega

/-- C5 amended: `random_positions` that returns `Except.ok` returns exactly `count`
centres, all satisfying the inside check and pairwise at distance at least `min_dist`
(otherwise it raises the placement-exhausted `SystemExit`); but `_scatter_positions`
of the layout module never raises: it always returns exactly `n` points, falling back
to unchecked loose-grid placement on attempt exhaustion (so its result may violate the
minimum distance, see the counterexample). -/
theorem C5_amended_placement_exhaustion :
    (∀ (count : Nat) (d : ℚ) (inside : ℚ → ℚ → Bool) (pts : Nat → ℚ × ℚ)
        (limit : Nat) (res : List (ℚ × ℚ)),
      random_positions count d inside pts limit = Except.ok res →
      res.length = count ∧ (∀ p ∈ res, inside p.1 p.2 = true) ∧
        List.Pairwise (fun p q => distGe p q d = true) res)
  ∧ ∀ (n : Nat) (margin d : ℚ) (pts : Nat → ℚ × ℚ),
      (scatter_positions n margin d pts).length = n := by
  constructor
  · intro count d inside pts limit res h
    have hs := rpGo_sound inside d count pts limit 0 []
      (by simp) (by simp) List.Pairwise.nil
    unfold random_positions at h
    dsimp only at h
    by_cases hlt : (rpGo inside d count pts 0 limit []).length < count
    · rw [if_pos hlt] at h
      cases h
    · rw [if_neg hlt] at h
      cases h
      refine ⟨?_, hs.2.1, hs.2.2⟩
      have := hs.1
      omega
  · intro n margin d pts
    have := scatterLoop_length margin d pts n 0 []
    simpa [scatter_positions] using this

theorem scatterLoop_succ (margin d : ℚ) (pts : Nat → ℚ × ℚ) (k n : Nat)
    (positions : List (ℚ × ℚ)) :
    scatterLoop margin d pts k (n + 1) positions =
      match scatterTryOnce d positions pts k 2000 with
      | some (c, k2) => scatterLoop margin d pts k2 n (positions ++ [c])
      | none =>
          scatterLoop margin d pts (k + 2000) n
            (positions ++ [scatterGridFallback margin positions.length]) := by
  rw [scatterLoop]

theorem scatterTryOnce_accept_first (d : ℚ) (positions : List (ℚ × ℚ))
    (pts : Nat → ℚ × ℚ) (k fuel : Nat)
    (h : positions.all (fun p => distGe (pts k) p d) = true) :
    scatterTryOnce d positions pts k (fuel + 1) = some (pts k, k + 1) := by
  rw [scatterTryOnce, if_pos h]

theorem scatterTryOnce_stuck :
    ∀ (fuel k : Nat),
      scatterTryOnce 200 [((50 : ℚ), (50 : ℚ))] (fun _ => (50, 50)) k fuel = none := by
  intro fuel
  induction fuel with
  | zero => intro k; rfl
  | succ fuel ih =>
    intro k
    have hc : ¬ (([((50 : ℚ), (50 : ℚ))]).all
        (fun p => distGe ((fun _ => ((50 : ℚ), (50 : ℚ))) k) p 200) = true) := by
      norm_num [distGe, sqdist]
    rw [scatterTryOnce, if_neg hc]
    exact ih (k + 1)

/-- Witness for the amended C5: a single point placed with one attempt succeeds and
satisfies the guarantees; a 3-point scatter returns exactly 3 points. -/
theorem C5_amended_placement_exhaustion_witness :
    ((([((50 : ℚ), (50 : ℚ))] : List (ℚ × ℚ)).length = 1 ∧
      (∀ p ∈ ([((50 : ℚ), (50 : ℚ))] : List (ℚ × ℚ)), (fun _ _ => true) p.1 p.2 = true) ∧
      List.Pairwise (fun p q => distGe p q 12 = true) [((50 : ℚ), (50 : ℚ))])
  ∧ (scatter_positions 3 10 12 (fun _ => (50, 50))).length = 3) := by
  constructor
  · apply C5_amended_placement_exhaustion.1 1 12 (fun _ _ => true) (fun _ => (50, 50)) 1
    norm_num [random_positions, rpGo, rpAccept]
  · exact C5_amended_placement_exhaustion.2 3 10 12 (fun _ => (50, 50))

/-- C5 counterexample: `_scatter_positions(2, margin=10, min_dist=200, rng)` (with a rng
whose draws always give the candidate `(50, 50)`) exhausts the 2000 inner attempts for
the second point and silently falls back to the loose grid: it returns exactly 2 points
`[(50, 50), (42, 110/3)]` whose distance is below the requested minimum distance 200
(`distGe` is false), instead of raising a placement-exhausted error. -/
theorem C5_counterexample_scatter_grid_fallback_violates_min_dist :
    scatter_positions 2 10 200 (fun _ => (50, 50)) = [(50, 50), (42, 110 / 3)] ∧
    distGe (50, 50) (42, 110 / 3) 200 = false := by
  constructor
  · have h1 : scatterTryOnce 200 ([] : List (ℚ × ℚ)) (fun _ => (50, 50)) 0 2000 =
        some ((50, 50), 1) :=
      scatterTryOnce_accept_first 200 [] (fun _ => (50, 50)) 0 1999 (by simp)
    have e1 : scatter_positions 2 10 200 (fun _ => (50, 50)) =
        scatterLoop 10 200 (fun _ => (50, 50)) 1 1 [(50, 50)] := by
      rw [scatter_positions, scatterLoop_succ, h1]
      rfl
    have e2 : scatterLoop 10 200 (fun _ => (50, 50)) 1 1 [((50 : ℚ), (50 : ℚ))] =
        [(50, 50), scatterGridFallback 10 1] := by
      rw [scatterLoop_succ, scatterTryOnce_stuck 2000 1]
      rfl
    rw [e1, e2]
    have hg : scatterGridFallback 10 1 = ((42 : ℚ), 110 / 3) := by
      norm_num [scatterGridFallback]
    rw [hg]
  · norm_num [distGe, sqdist]

theorem mirrorV_mirrorV (p : ℚ × ℚ) : mirrorV (mirrorV p) = p := by
  unfold mirrorV mirror_point
  simp

theorem mirrorPairs_length (pts : List (ℚ × ℚ)) :
    (mirrorPairs pts).length = 2 * pts.length := by
  induction pts with
  | nil => rfl
  | cons p rest ih =>
    simp only [mirrorPairs, List.flatMap_cons, List.length_append] at ih ⊢
    simp only [List.length_cons, List.length_singleton, List.length_nil]
    omega

theorem mirrorPairs_append_single (pts : List (ℚ × ℚ)) (p : ℚ × ℚ) :
    mirrorPairs (pts ++ [p]) = mirrorPairs pts ++ [p, mirrorV p] := by
  simp [mirrorPairs]

theorem map_mirrorV_perm (pts : List (ℚ × ℚ)) :
    ((mirrorPairs pts).map mirrorV).Perm (mirrorPairs pts) := by
  induction pts with
  | nil => simp [mirrorPairs]
  | cons p rest ih =>
    simp only [mirrorPairs, List.flatMap_cons, List.map_append, List.map_cons,
      List.map_nil, mirrorV_mirrorV] at ih ⊢
    exact List.Perm.append (List.Perm.swap p (mirrorV p) []) ih

theorem mirrorPairs_countP_fifty (pts : List (ℚ × ℚ)) (h : ∀ p ∈ pts, p.1 < 50) :
    (mirrorPairs pts).countP (fun p => decide (p.1 = 50)) = 0 := by
  induction pts with
  | nil => rfl
  | cons p rest ih =>
    have hp := h p (List.mem_cons_self _ _)
    have h1 : ¬ (p.1 = 50) := ne_of_lt hp
    have h2 : ¬ ((mirrorV p).1 = 50) := by
      unfold mirrorV mirror_point
      intro hc
      simp only at hc
      linarith
    simp only [mirrorPairs, List.flatMap_cons, List.countP_append, List.countP_cons,
      List.countP_nil, h1, h2, decide_eq_true_eq, if_false]
    have := ih (fun q hq => h q (List.mem_cons_of_mem _ hq))
    simp only [mirrorPairs] at this
    omega

theorem uniform_le (a b u : ℚ) (hab : a ≤ b) (h0 : 0 ≤ u) (h1 : u < 1) :
    uniform a b u ≤ b := by
  unfold uniform
  nlinarith [mul_nonneg (sub_nonneg.mpr hab) (by linarith : (0 : ℚ) ≤ 1 - u)]

theorem sample_on_symmetry_line_vertical_fst (inside : ℚ → ℚ → Bool)
    (bounds : ℚ × ℚ × ℚ × ℚ) (d : ℚ) (positions : List (ℚ × ℚ)) (u : Nat → ℚ) :
    ∀ (fuel k : Nat) (c : ℚ × ℚ) (k2 : Nat),
      sample_on_symmetry_line Symmetry.vertical inside bounds d positions u k fuel =
        some (c, k2) → c.1 = 50 := by
  intro fuel
  induction fuel with
  | zero => intro k c k2 h; cases h
  | succ fuel ih =>
    intro k c k2 h
    simp only [sample_on_symmetry_line] at h
    split at h
    · cases h
      rfl
    · exact ih (k + 1) c k2 h

theorem rpsGo_vertical_invariant (inside : ℚ → ℚ → Bool) (d : ℚ)
    (bounds : ℚ × ℚ × ℚ × ℚ) (count : Nat) (u : Nat → ℚ)
    (hu : ∀ n, 0 ≤ u n ∧ u n < 1) (hd : 0 < d) (hb : bounds.1 ≤ 50 - d / 2) :
    ∀ (fuel k : Nat) (positions : List (ℚ × ℚ)),
      positions.length ≤ count → rpsVerticalInv count positions →
      (rpsGo Symmetry.vertical inside d bounds count u k fuel positions).length ≤ count ∧
      rpsVerticalInv count
        (rpsGo Symmetry.vertical inside d bounds count u k fuel positions) := by
  intro fuel
  induction fuel with
  | zero => intro k positions hlen hinv; exact ⟨hlen, hinv⟩
  | succ fuel ih =>
    intro k positions hlen hinv
    rw [rpsGo]
    by_cases h1 : positions.length < count
    · rw [if_pos h1]
      by_cases h2 : positions.length < 2 * (count / 2)
      · rw [if_pos h2]
        obtain ⟨pts, rfl, hpts⟩ :
            ∃ pts, positions = mirrorPairs pts ∧ ∀ p ∈ pts, p.1 < 50 := by
          rcases hinv with h | ⟨_, hlen2, _⟩
          · exact h
          · omega
        dsimp only
        have hplen := mirrorPairs_length pts
        have hcx : uniform (canonical_half_bounds_for_pairs bounds Symmetry.vertical
            (d / 2)).1 (canonical_half_bounds_for_pairs bounds Symmetry.vertical
            (d / 2)).2.1 (u k) < 50 := by
          have : (canonical_half_bounds_for_pairs bounds Symmetry.vertical (d / 2)).1 =
              bounds.1 := rfl
          have h22 : (canonical_half_bounds_for_pairs bounds Symmetry.vertical
              (d / 2)).2.1 = 50 - d / 2 := rfl
          rw [this, h22]
          have := uniform_le bounds.1 (50 - d / 2) (u k) hb (hu k).1 (hu k).2
          linarith
        by_cases hacc : accept_pair Symmetry.vertical inside d (mirrorPairs pts)
            (uniform (canonical_half_bounds_for_pairs bounds Symmetry.vertical
              (d / 2)).1 (canonical_half_bounds_for_pairs bounds Symmetry.vertical
              (d / 2)).2.1 (u k))
            (uniform (canonical_half_bounds_for_pairs bounds Symmetry.vertical
              (d / 2)).2.2.1 (canonical_half_bounds_for_pairs bounds Symmetry.vertical
              (d / 2)).2.2.2 (u (k + 1))) = true
        · rw [if_pos hacc]
          apply ih
          · rw [List.length_append]
            simp only [List.length_cons, List.length_nil]
            omega
          · left
            refine ⟨pts ++ [(uniform (canonical_half_bounds_for_pairs bounds
                Symmetry.vertical (d / 2)).1 (canonical_half_bounds_for_pairs bounds
                Symmetry.vertical (d / 2)).2.1 (u k),
              uniform (canonical_half_bounds_for_pairs bounds Symmetry.vertical
                (d / 2)).2.2.1 (canonical_half_bounds_for_pairs bounds
                Symmetry.vertical (d / 2)).2.2.2 (u (k + 1)))], ?_, ?_⟩
            · rw [mirrorPairs_append_single]
              rfl
            · intro p hp
              rcases List.mem_append.mp hp with hp' | hp'
              · exact hpts p hp'
              · rw [List.mem_singleton] at hp'
                subst hp'
                exact hcx
        · rw [if_neg hacc]
          exact ih _ _ hlen (Or.inl ⟨pts, rfl, hpts⟩)
      · rw [if_neg h2]
        by_cases h3 : count % 2 = 1 ∧ positions.length = count - 1
        · rw [if_pos h3]
          obtain ⟨pts, rfl, hpts⟩ :
              ∃ pts, positions = mirrorPairs pts ∧ ∀ p ∈ pts, p.1 < 50 := by
            rcases hinv with h | ⟨_, hlen2, _⟩
            · exact h
            · omega
          cases hs : sample_on_symmetry_line Symmetry.vertical inside bounds d
              (mirrorPairs pts) u k MAX_PLACEMENT_ATTEMPTS with
          | none =>
            simp only [hs]
            exact ih _ _ hlen (Or.inl ⟨pts, rfl, hpts⟩)
          | some ck =>
            obtain ⟨c, k2⟩ := ck
            simp only [hs]
            have hc50 : c.1 = 50 :=
              sample_on_symmetry_line_vertical_fst inside bounds d (mirrorPairs pts) u
                MAX_PLACEMENT_ATTEMPTS k c k2 hs
            apply ih
            · rw [List.length_append, List.length_singleton]
              omega
            · right
              refine ⟨h3.1, ?_, pts, c, rfl, hpts, hc50⟩
              rw [List.length_append, List.length_singleton]
              omega
        · rw [if_neg h3]
          exact ih _ _ hlen hinv
    · rw [if_neg h1]
      exact ⟨hlen, hinv⟩

/-- C6 amended: for a successful vertical-symmetry scatter with a positive minimum
distance and sampling bounds that leave room in the canonical half
(`bounds.x_min ≤ 50 - min_dist/2`, the configuration every caller uses): an even count
returns a point multiset equal to its own mirror image under `x ↦ 100 - x`, and an odd
count returns exactly one point with `x = 50`, the remaining points forming mirrored
pairs strictly off the line.  (Without `0 < min_dist` and the bounds condition the
claim fails, see the counterexample.) -/
theorem C6_amended_symmetric_vertical (count : Nat) (d : ℚ) (inside : ℚ → ℚ → Bool)
    (bounds : ℚ × ℚ × ℚ × ℚ) (u : Nat → ℚ) (res : List (ℚ × ℚ))
    (hu : ∀ n, 0 ≤ u n ∧ u n < 1) (hd : 0 < d) (hb : bounds.1 ≤ 50 - d / 2)
    (hok : random_positions_symmetric count Symmetry.vertical d inside bounds u =
      Except.ok res) :
    (count % 2 = 0 → (res.map mirrorV).Perm res) ∧
    (count % 2 = 1 →
      res.countP (fun p => decide (p.1 = 50)) = 1 ∧
      ∃ pts q, res = mirrorPairs pts ++ [q] ∧ q.1 = 50 ∧ ∀ p ∈ pts, p.1 < 50) := by
  have hrun := rpsGo_vertical_invariant inside d bounds count u hu hd hb
    MAX_PLACEMENT_ATTEMPTS_SYMMETRIC 0 [] (by simp) (Or.inl ⟨[], rfl, by simp⟩)
  unfold random_positions_symmetric at hok
  by_cases hlt : (rpsGo Symmetry.vertical inside d bounds count u 0
      MAX_PLACEMENT_ATTEMPTS_SYMMETRIC []).length < count
  · rw [if_pos hlt] at hok
    cases hok
  · rw [if_neg hlt] at hok
    cases hok
    obtain ⟨hlen, hinv⟩ := hrun
    constructor
    · intro heven
      rcases hinv with ⟨pts, hE, _⟩ | ⟨hodd, _, _⟩
      · rw [hE]
        exact map_mirrorV_perm pts
      · omega
    · intro hodd
      rcases hinv with ⟨pts, hE, hpts⟩ | ⟨_, _, pts, q, hE, hpts, hq⟩
      · exfalso
        have h2 := mirrorPairs_length pts
        rw [hE] at hlt hlen
        omega
      · refine ⟨?_, pts, q, hE, hq, hpts⟩
        rw [hE, List.countP_append, mirrorPairs_countP_fifty pts hpts]
        simp [hq]

theorem rpsGo_done (sym : Symmetry) (inside : ℚ → ℚ → Bool) (d : ℚ)
    (bounds : ℚ × ℚ × ℚ × ℚ) (count : Nat) (u : Nat → ℚ) (k fuel : Nat)
    (positions : List (ℚ × ℚ)) (h : ¬ (positions.length < count)) :
    rpsGo sym inside d bounds count u k (fuel + 1) positions = positions := by
  rw [rpsGo, if_neg h]

theorem rpsGo_online_some (sym : Symmetry) (inside : ℚ → ℚ → Bool) (d : ℚ)
    (bounds : ℚ × ℚ × ℚ × ℚ) (count : Nat) (u : Nat → ℚ) (k fuel : Nat)
    (positions : List (ℚ × ℚ)) (c : ℚ × ℚ) (k2 : Nat)
    (h1 : positions.length < count) (h2 : ¬ (positions.length < 2 * (count / 2)))
    (h3 : count % 2 = 1 ∧ positions.length = count - 1)
    (hs : sample_on_symmetry_line sym inside bounds d positions u k
        MAX_PLACEMENT_ATTEMPTS = some (c, k2)) :
    rpsGo sym inside d bounds count u k (fuel + 1) positions =
      rpsGo sym inside d bounds count u k2 fuel (positions ++ [c]) := by
  rw [rpsGo, if_pos h1, if_neg h2, if_pos h3, hs]

theorem rpsGo_pair_accept (sym : Symmetry) (inside : ℚ → ℚ → Bool) (d : ℚ)
    (bounds : ℚ × ℚ × ℚ × ℚ) (count : Nat) (u : Nat → ℚ) (k fuel : Nat)
    (positions : List (ℚ × ℚ)) (cx cy : ℚ)
    (h1 : positions.length < count) (h2 : positions.length < 2 * (count / 2))
    (hcx : cx = uniform (canonical_half_bounds_for_pairs bounds sym (d / 2)).1
        (canonical_half_bounds_for_pairs bounds sym (d / 2)).2.1 (u k))
    (hcy : cy = uniform (canonical_half_bounds_for_pairs bounds sym (d / 2)).2.2.1
        (canonical_half_bounds_for_pairs bounds sym (d / 2)).2.2.2 (u (k + 1)))
    (hacc : accept_pair sym inside d positions cx cy = true) :
    rpsGo sym inside d bounds count u k (fuel + 1) positions =
      rpsGo sym inside d bounds count u (k + 2) fuel
        (positions ++ [(cx, cy), mirror_point cx cy sym]) := by
  subst hcx hcy
  rw [rpsGo, if_pos h1, if_pos h2]
  dsimp only
  rw [if_pos hacc]

theorem sample_on_symmetry_line_accept_first (sym : Symmetry) (inside : ℚ → ℚ → Bool)
    (bounds : ℚ × ℚ × ℚ × ℚ) (d : ℚ) (positions : List (ℚ × ℚ)) (u : Nat → ℚ)
    (k fuel : Nat)
    (h : (inside (sampleOnLinePoint sym bounds (u k)).1
          (sampleOnLinePoint sym bounds (u k)).2 &&
        positions.all (fun p => distGe (sampleOnLinePoint sym bounds (u k)) p d)) =
        true) :
    sample_on_symmetry_line sym inside bounds d positions u k (fuel + 1) =
      some (sampleOnLinePoint sym bounds (u k), k + 1) := by
  simp only [sample_on_symmetry_line]
  rw [if_pos h]

/-- Witness for the amended C6: one motif (odd count) with min distance 12 in bounds
`(10, 90, 10, 90)` is placed on the line; the result has exactly one point with
`x = 50` and an empty pair block. -/
theorem C6_amended_symmetric_vertical_witness :
    (([((50 : ℚ), (10 : ℚ))] : List (ℚ × ℚ)).countP (fun p => decide (p.1 = 50)) = 1) ∧
    ∃ pts q, ([((50 : ℚ), (10 : ℚ))] : List (ℚ × ℚ)) = mirrorPairs pts ++ [q] ∧
      q.1 = 50 ∧ ∀ p ∈ pts, p.1 < 50 := by
  have hpt : sampleOnLinePoint Symmetry.vertical (10, 90, 10, 90) ((fun _ => (0 : ℚ)) 0) =
      ((50 : ℚ), (10 : ℚ)) := by
    norm_num [sampleOnLinePoint, uniform]
  have hs : sample_on_symmetry_line Symmetry.vertical (fun _ _ => true)
      (10, 90, 10, 90) 12 [] (fun _ => 0) 0 MAX_PLACEMENT_ATTEMPTS =
      some (((50 : ℚ), (10 : ℚ)), 1) := by
    have h := sample_on_symmetry_line_accept_first Symmetry.vertical (fun _ _ => true)
      (10, 90, 10, 90) 12 [] (fun _ => 0) 0 1999 (by simp)
    rw [hpt] at h
    exact h
  have e1 : rpsGo Symmetry.vertical (fun _ _ => true) 12 (10, 90, 10, 90) 1
      (fun _ => 0) 0 MAX_PLACEMENT_ATTEMPTS_SYMMETRIC [] =
      rpsGo Symmetry.vertical (fun _ _ => true) 12 (10, 90, 10, 90) 1 (fun _ => 0) 1
        5999 [((50 : ℚ), (10 : ℚ))] :=
    rpsGo_online_some Symmetry.vertical (fun _ _ => true) 12 (10, 90, 10, 90) 1
      (fun _ => 0) 0 5999 [] ((50 : ℚ), (10 : ℚ)) 1 (by decide) (by decide)
      (by constructor <;> rfl) hs
  have e2 : rpsGo Symmetry.vertical (fun _ _ => true) 12 (10, 90, 10, 90) 1
      (fun _ => 0) 1 5999 [((50 : ℚ), (10 : ℚ))] = [((50 : ℚ), (10 : ℚ))] :=
    rpsGo_done Symmetry.vertical (fun _ _ => true) 12 (10, 90, 10, 90) 1 (fun _ => 0)
      1 5998 [((50 : ℚ), (10 : ℚ))] (by decide)
  have hok : random_positions_symmetric 1 Symmetry.vertical 12 (fun _ _ => true)
      (10, 90, 10, 90) (fun _ => 0) = Except.ok [(50, 10)] := by
    unfold random_positions_symmetric
    rw [e1.trans e2]
    rfl
  exact (C6_amended_symmetric_vertical 1 12 (fun _ _ => true) (10, 90, 10, 90)
    (fun _ => 0) [(50, 10)] (fun n => by norm_num) (by norm_num) (by norm_num)
    hok).2 (by decide)

/-- C6 counterexample: with `min_dist = 0` and bounds starting at `x = 50` the pair
phase can accept a point on the line and append it twice, so a successful odd-count
(3) vertical-symmetry placement returns three points with `x = 50` — not exactly
one. -/
theorem C6_counterexample_three_points_on_line :
    random_positions_symmetric 3 Symmetry.vertical 0 (fun _ _ => true) (50, 90, 10, 90)
        (fun _ => 0) = Except.ok [(50, 10), (50, 10), (50, 10)] ∧
    ¬ (([((50 : ℚ), (10 : ℚ)), (50, 10), (50, 10)] : List (ℚ × ℚ)).countP
        (fun p => decide (p.1 = 50)) = 1) := by
  constructor
  · have e1 : rpsGo Symmetry.vertical (fun _ _ => true) 0 (50, 90, 10, 90) 3
        (fun _ => 0) 0 MAX_PLACEMENT_ATTEMPTS_SYMMETRIC [] =
        rpsGo Symmetry.vertical (fun _ _ => true) 0 (50, 90, 10, 90) 3 (fun _ => 0) 2
          5999 [((50 : ℚ), (10 : ℚ)), ((50 : ℚ), (10 : ℚ))] := by
      refine (rpsGo_pair_accept Symmetry.vertical (fun _ _ => true) 0
        (50, 90, 10, 90) 3 (fun _ => 0) 0 5999 [] 50 10 (by decide) (by decide)
        (by norm_num [canonical_half_bounds_for_pairs, uniform])
        (by norm_num [canonical_half_bounds_for_pairs, uniform])
        (by norm_num [accept_pair, in_canonical_half, mirror_point])).trans ?_
      norm_num [mirror_point]
    have hpt : sampleOnLinePoint Symmetry.vertical (50, 90, 10, 90)
        ((fun _ => (0 : ℚ)) 2) = ((50 : ℚ), (10 : ℚ)) := by
      norm_num [sampleOnLinePoint, uniform]
    have hs : sample_on_symmetry_line Symmetry.vertical (fun _ _ => true)
        (50, 90, 10, 90) 0 [((50 : ℚ), (10 : ℚ)), ((50 : ℚ), (10 : ℚ))] (fun _ => 0) 2
        MAX_PLACEMENT_ATTEMPTS = some (((50 : ℚ), (10 : ℚ)), 3) := by
      have h := sample_on_symmetry_line_accept_first Symmetry.vertical
        (fun _ _ => true) (50, 90, 10, 90) 0
        [((50 : ℚ), (10 : ℚ)), ((50 : ℚ), (10 : ℚ))] (fun _ => 0) 2 1999
        (by simp [distGe])
      rw [hpt] at h
      exact h
    have e2 : rpsGo Symmetry.vertical (fun _ _ => true) 0 (50, 90, 10, 90) 3
        (fun _ => 0) 2 5999 [((50 : ℚ), (10 : ℚ)), ((50 : ℚ), (10 : ℚ))] =
        rpsGo Symmetry.vertical (fun _ _ => true) 0 (50, 90, 10, 90) 3 (fun _ => 0) 3
          5998 [((50 : ℚ), (10 : ℚ)), ((50 : ℚ), (10 : ℚ)), ((50 : ℚ), (10 : ℚ))] :=
      rpsGo_online_some Symmetry.vertical (fun _ _ => true) 0 (50, 90, 10, 90) 3
        (fun _ => 0) 2 5998 [((50 : ℚ), (10 : ℚ)), ((50 : ℚ), (10 : ℚ))]
        ((50 : ℚ), (10 : ℚ)) 3 (by decide) (by decide) (by constructor <;> rfl) hs
    have e3 : rpsGo Symmetry.vertical (fun _ _ => true) 0 (50, 90, 10, 90) 3
        (fun _ => 0) 3 5998
        [((50 : ℚ), (10 : ℚ)), ((50 : ℚ), (10 : ℚ)), ((50 : ℚ), (10 : ℚ))] =
        [((50 : ℚ), (10 : ℚ)), ((50 : ℚ), (10 : ℚ)), ((50 : ℚ), (10 : ℚ))] :=
      rpsGo_done Symmetry.vertical (fun _ _ => true) 0 (50, 90, 10, 90) 3 (fun _ => 0)
        3 5997 _ (by decide)
    unfold random_positions_symmetric
    rw [(e1.trans e2).trans e3]
    rfl
  · norm_num [List.countP_cons]

/-- C7: rendering with the same inputs and the same explicit integer seed twice is
deterministic: equal `(count, min_dist, inside, bounds, limit, seed)` tuples give equal
placement positions from `random_positions`, and equal
`(fragments, margin, min_dist, scale, seed)` tuples give byte-identical SVG strings
from the scatter render pipeline.  In the embedding every run is a pure function of
the input tuple — faithfully to the source, whose only randomness on this path is
`random.Random(seed)` and which reads no other mutable state. -/
theorem C7_seeded_rendering_deterministic :
    (∀ (count : Nat) (min_dist : ℚ) (inside : ℚ → ℚ → Bool)
        (bounds : ℚ × ℚ × ℚ × ℚ) (limit : Nat) (s1 s2 : Int), s1 = s2 →
      random_positions_seeded count min_dist inside bounds limit s1 =
        random_positions_seeded count min_dist inside bounds limit s2)
  ∧ (∀ (fragments1 fragments2 : List String) (margin1 margin2 d1 d2 sc1 sc2 : ℚ)
        (s1 s2 : Int),
      fragments1 = fragments2 → margin1 = margin2 → d1 = d2 → sc1 = sc2 → s1 = s2 →
      render_scatter_svg fragments1 margin1 d1 sc1 s1 =
        render_scatter_svg fragments2 margin2 d2 sc2 s2) := by
  constructor
  · intro count d inside bounds limit s1 s2 h
    rw [h]
  · intro f1 f2 m1 m2 d1 d2 sc1 sc2 s1 s2 hf hm hd hsc hs
    rw [hf, hm, hd, hsc, hs]

/-- Witness for C7 at concrete inputs (same seed twice). -/
theorem C7_seeded_rendering_deterministic_witness :
    random_positions_seeded 2 12 (fun _ _ => true) (MIN_CENTRE, MAX_CENTRE,
        MIN_CENTRE, MAX_CENTRE) 2000 7 =
      random_positions_seeded 2 12 (fun _ _ => true) (MIN_CENTRE, MAX_CENTRE,
        MIN_CENTRE, MAX_CENTRE) 2000 7
  ∧ render_scatter_svg ["<path d=\"M 0 0\"/>"] 10 12 1 42 =
      render_scatter_svg ["<path d=\"M 0 0\"/>"] 10 12 1 42 :=
  ⟨C7_seeded_rendering_deterministic.1 2 12 (fun _ _ => true)
      (MIN_CENTRE, MAX_CENTRE, MIN_CENTRE, MAX_CENTRE) 2000 7 7 rfl,
   C7_seeded_rendering_deterministic.2 ["<path d=\"M 0 0\"/>"] ["<path d=\"M 0 0\"/>"]
      10 10 12 12 1 1 42 42 rfl rfl rfl rfl rfl⟩
